import Mathlib

set_option maxRecDepth 100000

/-!
Verification development for the publint conditional entry-point resolution and
format-consistency engine (`src/packages/publint/src/shared/utils.js` and
`src/packages/publint/src/shared/core.js`).

The JavaScript source is shallowly embedded: pure functions become Lean
functions, the asynchronous VFS boundary becomes a record of pure functions,
`JSON.parse` of manifests becomes an environment function, and the
`while (true)` ancestor walk and recursive directory scan take a fuel
parameter (they terminate only by properties of the concrete file system).
Regular expressions from the source are compiled by hand into character-list
scanners that implement the same matching semantics.
-/

namespace Publint

/-- Source `CodeFormat` from `utils.js`: `'ESM' | 'CJS' | 'mixed' | 'unknown'`. -/
inductive CodeFormat where
  | ESM
  | CJS
  | mixed
  | unknown
deriving DecidableEq, Repr

/-- JavaScript whitespace as matched by the regex class `\s`. -/
def isJsSpace (c : Char) : Bool :=
  c == ' ' || c == '\t' || c == '\n' || c == '\r' || c == '\x0b' || c == '\x0c' ||
  c == '\u00A0' || c == '\u1680' || (('\u2000' ≤ c) && (c ≤ '\u200A')) ||
  c == '\u2028' || c == '\u2029' || c == '\u202F' || c == '\u205F' || c == '\u3000' || c == '\uFEFF'

/-- JavaScript word characters as matched by the regex class `\w`. -/
def isWordChar (c : Char) : Bool :=
  c.isAlphanum || c == '_'

/-- JavaScript line terminators (the characters the regex `.` does not match). -/
def isLineTerm (c : Char) : Bool :=
  c == '\n' || c == '\r' || c == '\u2028' || c == '\u2029'

/-- Match a literal pattern at the start of `s`; return the remainder on success. -/
def matchLit : List Char → List Char → Option (List Char)
  | [], s => some s
  | _ :: _, [] => none
  | p :: ps, c :: s => if c = p then matchLit ps s else none

/-- A word boundary `\b` holds after the consumed literal when the remainder is
empty or starts with a non-word character. -/
def atBoundary : List Char → Bool
  | [] => true
  | c :: _ => !(isWordChar c)

/-! ### `stripComments` (utils.js line 38-47)

`MULTILINE_COMMENTS_RE = /\/\*(.|[\r\n])*?\*\//gm` followed by
`SINGLELINE_COMMENTS_RE = /\/\/.*/g`. -/

/-- Is there a closing `*/` ahead of an open `/*`? The comment body class
`(.|[\r\n])` matches every character except `\u2028` and `\u2029`, so the
search stops at those. -/
def hasCommentClose : List Char → Bool
  | '*' :: '/' :: _ => true
  | c :: rest => if c = '\u2028' || c = '\u2029' then false else hasCommentClose rest
  | [] => false

/-- Remove multi-line comments, replaying the global lazy regex replace as a
state machine (the flag is true while inside a comment known to close). -/
def stripMulti : Bool → List Char → List Char
  | false, '/' :: '*' :: rest =>
    if hasCommentClose rest then stripMulti true rest
    else '/' :: stripMulti false ('*' :: rest)
  | false, c :: rest => c :: stripMulti false rest
  | true, '*' :: '/' :: rest => stripMulti false rest
  | true, _ :: rest => stripMulti true rest
  | _, [] => []

/-- Remove single-line comments (`//` up to, not including, the next line
terminator), as a state machine (the flag is true inside a comment). -/
def stripSingle : Bool → List Char → List Char
  | false, '/' :: '/' :: rest => stripSingle true rest
  | false, c :: rest => c :: stripSingle false rest
  | true, c :: rest =>
    if isLineTerm c then c :: stripSingle false rest else stripSingle true rest
  | _, [] => []

/-- Source `stripComments` from utils.js: strip multi-line comments, then single-line ones. -/
def stripComments (code : String) : String :=
  ⟨stripSingle false (stripMulti false code.data)⟩

/-! ### `isCodeEsm` (utils.js line 19-26)

`ESM_CONTENT_RE = /([\s;]|^)(import[\w,{}\s*]*from|import\s*['"*{]|export\b\s*(?:[*{]|default|type|function|const|var|let|async function)|import\.meta\b)/m` -/

/-- The character class `[\w,{}\s*]` in the first ESM alternative. -/
def isImportMiddleChar (c : Char) : Bool :=
  isWordChar c || c == ',' || c == '{' || c == '}' || isJsSpace c || c == '*'

/-- After `import`, scan `[\w,{}\s*]*` looking for a point where `from` matches. -/
def scanForFrom : List Char → Bool
  | [] => false
  | c :: cs =>
    if (matchLit "from".data (c :: cs)).isSome then true
    else if isImportMiddleChar c then scanForFrom cs else false

/-- Alternative `import[\w,{}\s*]*from` matched at the start of `s`. -/
def esmImportFrom (s : List Char) : Bool :=
  match matchLit "import".data s with
  | some rest => scanForFrom rest
  | none => false

/-- Alternative `import\s*['"*{]` matched at the start of `s`. -/
def esmImportOpen (s : List Char) : Bool :=
  match matchLit "import".data s with
  | some rest =>
    match rest.dropWhile isJsSpace with
    | c :: _ => c == '\'' || c == '"' || c == '*' || c == '{'
    | [] => false
  | none => false

/-- Alternative `export\b\s*(?:[*{]|default|type|function|const|var|let|async function)`. -/
def esmExport (s : List Char) : Bool :=
  match matchLit "export".data s with
  | some rest =>
    if atBoundary rest then
      let r := rest.dropWhile isJsSpace
      (match r with
       | c :: _ => c == '*' || c == '{'
       | [] => false) ||
      (matchLit "default".data r).isSome ||
      (matchLit "type".data r).isSome ||
      (matchLit "function".data r).isSome ||
      (matchLit "const".data r).isSome ||
      (matchLit "var".data r).isSome ||
      (matchLit "let".data r).isSome ||
      (matchLit "async function".data r).isSome
    else false
  | none => false

/-- Alternative `import\.meta\b`. -/
def esmImportMeta (s : List Char) : Bool :=
  match matchLit "import.meta".data s with
  | some rest => atBoundary rest
  | none => false

/-- Some ESM alternative matches at the start of `s`. -/
def esmBranchAt (s : List Char) : Bool :=
  esmImportFrom s || esmImportOpen s || esmExport s || esmImportMeta s

/-- A position is eligible when it is the string start or follows `[\s;]`
(the multiline `^` alternative is subsumed: `\s` contains every line
terminator). -/
def prevCharOk : Option Char → Bool
  | none => true
  | some c => isJsSpace c || c == ';'

/-- Search every position of `s` for an eligible ESM alternative match. -/
def esmSearch : Option Char → List Char → Bool
  | prev, [] => prevCharOk prev && esmBranchAt []
  | prev, c :: cs => (prevCharOk prev && esmBranchAt (c :: cs)) || esmSearch (some c) cs

/-- Source `isCodeEsm` from utils.js: test `ESM_CONTENT_RE` against the code. -/
def isCodeEsm (code : String) : Bool :=
  esmSearch none code.data

/-! ### `isCodeCjs` (utils.js line 29-36)

`CJS_CONTENT_RE = /([\s;]|^)(module.exports\b|exports\.\w|require\s*\(|global\.\w|Object\.(defineProperty|defineProperties|assign)\s*\(\s*exports\b)/m` -/

/-- Alternative `module.exports\b`; the unescaped `.` matches any
non-line-terminator character. -/
def cjsModuleExports (s : List Char) : Bool :=
  match matchLit "module".data s with
  | some (c :: rest) =>
    if isLineTerm c then false
    else
      match matchLit "exports".data rest with
      | some r => atBoundary r
      | none => false
  | _ => false

/-- Alternative `exports\.\w`. -/
def cjsExportsDot (s : List Char) : Bool :=
  match matchLit "exports.".data s with
  | some (c :: _) => isWordChar c
  | _ => false

/-- Alternative `require\s*\(`. -/
def cjsRequireCall (s : List Char) : Bool :=
  match matchLit "require".data s with
  | some rest =>
    match rest.dropWhile isJsSpace with
    | '(' :: _ => true
    | _ => false
  | none => false

/-- Alternative `global\.\w`. -/
def cjsGlobalDot (s : List Char) : Bool :=
  match matchLit "global.".data s with
  | some (c :: _) => isWordChar c
  | _ => false

/-- One arm of `Object\.(defineProperty|defineProperties|assign)\s*\(\s*exports\b`. -/
def cjsObjectArm (name : String) (rest : List Char) : Bool :=
  match matchLit name.data rest with
  | some r =>
    match r.dropWhile isJsSpace with
    | '(' :: r2 =>
      match matchLit "exports".data (r2.dropWhile isJsSpace) with
      | some r3 => atBoundary r3
      | none => false
    | _ => false
  | none => false

/-- Alternative `Object\.(defineProperty|defineProperties|assign)\s*\(\s*exports\b`. -/
def cjsObjectDefine (s : List Char) : Bool :=
  match matchLit "Object.".data s with
  | some rest =>
    cjsObjectArm "defineProperty" rest || cjsObjectArm "defineProperties" rest ||
    cjsObjectArm "assign" rest
  | none => false

/-- Some CJS alternative matches at the start of `s`. -/
def cjsBranchAt (s : List Char) : Bool :=
  cjsModuleExports s || cjsExportsDot s || cjsRequireCall s || cjsGlobalDot s ||
  cjsObjectDefine s

/-- Search every position of `s` for an eligible CJS alternative match. -/
def cjsSearch : Option Char → List Char → Bool
  | prev, [] => prevCharOk prev && cjsBranchAt []
  | prev, c :: cs => (prevCharOk prev && cjsBranchAt (c :: cs)) || cjsSearch (some c) cs

/-- Source `isCodeCjs` from utils.js: test `CJS_CONTENT_RE` against the code. -/
def isCodeCjs (code : String) : Bool :=
  cjsSearch none code.data

/-! ### `getCodeFormat` (utils.js line 107-125) -/

/-- Source `getCodeFormat` from utils.js. -/
def getCodeFormat (code : String) : CodeFormat :=
  let code := stripComments code
  let isEsm := isCodeEsm code
  let isCjs := isCodeCjs code
  if isEsm && isCjs then .mixed
  else if isEsm then .ESM
  else if isCjs then .CJS
  else .unknown

example : getCodeFormat "module.exports = 1" = .CJS := by decide
example : getCodeFormat "import x from 'y'" = .ESM := by decide
example : getCodeFormat "console.log(1)" = .unknown := by decide
example : getCodeFormat "import 'a';require('b')" = .mixed := by decide
example : getCodeFormat "// module.exports = 1" = .unknown := by decide
example : getCodeFormat "/* import 'a' */ exports.a = 1" = .CJS := by decide

/-! ### JavaScript value and string modelling -/

/-- A parsed JSON-like JavaScript value. Objects are ordered key/value lists:
declared key order is exactly what `Object.keys` returns in the source. -/
inductive JsonValue where
  | str (s : String)
  | num (n : Int)
  | boolean (b : Bool)
  | null
  | arr (elems : List JsonValue)
  | obj (entries : List (String × JsonValue))

/-- JavaScript `typeof`. -/
def jsTypeof : JsonValue → String
  | .str _ => "string"
  | .num _ => "number"
  | .boolean _ => "boolean"
  | .null => "object"
  | .arr _ => "object"
  | .obj _ => "object"

/-- JavaScript truthiness of a JSON value. -/
def JsonValue.truthy : JsonValue → Bool
  | .str s => !s.data.isEmpty
  | .num n => n != 0
  | .boolean b => b
  | .null => false
  | .arr _ => true
  | .obj _ => true

/-- Source `Object.keys` / `for..in` key order for an object. -/
def JsonValue.keys : JsonValue → List String
  | .obj entries => entries.map Prod.fst
  | _ => []

/-- Source `String.prototype.endsWith`. -/
def strEndsWith (s suffixStr : String) : Bool :=
  List.isSuffixOf suffixStr.data s.data

/-- Source `String.prototype.startsWith`. -/
def strStartsWith (s preStr : String) : Bool :=
  List.isPrefixOf preStr.data s.data

/-- Substring occurrence, for `String.prototype.includes`. -/
def containsSub (needle : List Char) : List Char → Bool
  | [] => (matchLit needle []).isSome
  | c :: cs => (matchLit needle (c :: cs)).isSome || containsSub needle cs

/-- Source `String.prototype.includes`. -/
def strIncludes (s sub : String) : Bool :=
  containsSub sub.data s.data

/-- Source `String.prototype.slice(0, -n)`. -/
def strDropRight (s : String) (n : Nat) : String :=
  ⟨s.data.take (s.data.length - n)⟩

/-- Source `str.replace(/\\/g, '/')` — the `slash` helper of utils.js. -/
def slash (s : String) : String :=
  ⟨s.data.map (fun c => if c = '\\' then '/' else c)⟩

/-- Source `String.prototype.split` on a single-character separator. -/
def splitOnChar (sep : Char) : List Char → List (List Char)
  | [] => [[]]
  | c :: cs =>
    let rest := splitOnChar sep cs
    if c = sep then [] :: rest
    else
      match rest with
      | h :: t => (c :: h) :: t
      | [] => [[c]]

/-- Source `str.replace(/^[\/]+/, '')`: drop leading slashes. -/
def dropLeadingSlashes (s : String) : String :=
  ⟨s.data.dropWhile (· = '/')⟩

/-- Source `String.prototype.replace` with a plain-string search (first occurrence only),
as used for `exportsKey.replace('*', matched[1])`. -/
def replaceFirstList (search repl : List Char) : List Char → List Char
  | [] => []
  | c :: cs =>
    match matchLit search (c :: cs) with
    | some rest => repl ++ rest
    | none => c :: replaceFirstList search repl cs

/-- String wrapper for `replaceFirstList`. -/
def replaceFirst (str search repl : String) : String :=
  ⟨replaceFirstList search.data repl.data str.data⟩

/-- Replace the last occurrence; `none` when the search string does not occur
(`str.lastIndexOf(search) === -1`). An empty search appends, matching
`lastIndexOf('') === str.length`. -/
def replaceLastList (search repl : List Char) : List Char → Option (List Char)
  | [] => if search.isEmpty then some repl else none
  | c :: cs =>
    match replaceLastList search repl cs with
    | some r => some (c :: r)
    | none =>
      match matchLit search (c :: cs) with
      | some rest => some (repl ++ rest)
      | none => none

/-- Source `replaceLast` from utils.js (line 513-517). -/
def replaceLast (str search repl : String) : String :=
  match replaceLastList search.data repl.data str.data with
  | some r => ⟨r⟩
  | none => str

/-! ### The VFS port and manifest parsing -/

/-- Source `JSON.parse` result of a manifest, restricted to the `type` field — the
only field the format helpers consult (`Pkg` typedef in utils.js). -/
structure Pkg where
  type? : Option String

/-- The `Vfs` capability record of core.js (line 37-46), with the asynchronous
operations made pure: a rejected `readFile` promise is `none`. `jsonParsePkg`
models the `JSON.parse` builtin applied to a manifest text (`none` = throw). -/
structure Vfs where
  readFile : String → Option String
  readDir : String → List String
  isPathDir : String → Bool
  isPathExist : String → Bool
  pathJoin : String → String → String
  pathRelative : String → String → String
  getDirName : String → String
  getExtName : String → String
  jsonParsePkg : String → Option Pkg

/-- The ancestor walk of `getNearestPkg` (utils.js line 365-380). The
`while (true)` loop consumes fuel; the source terminates because `getDirName`
reaches a fixed point on a concrete file system. A manifest that is missing,
unreadable, or malformed is skipped silently and the walk continues. -/
def getNearestPkgLoop (vfs : Vfs) : Nat → String → Option Pkg
  | 0, _ => none
  | fuel + 1, currentDir =>
    let pkgJsonPath := vfs.pathJoin currentDir "package.json"
    match
      (if vfs.isPathExist pkgJsonPath then
        (vfs.readFile pkgJsonPath).bind vfs.jsonParsePkg
      else none) with
    | some pkg => some pkg
    | none =>
      let nextDir := vfs.getDirName currentDir
      if nextDir = currentDir then none else getNearestPkgLoop vfs fuel nextDir

/-- Source `getNearestPkg` from utils.js. -/
def getNearestPkg (vfs : Vfs) (fuel : Nat) (filePath : String) : Option Pkg :=
  getNearestPkgLoop vfs fuel (vfs.getDirName filePath)

/-- The `.native.js` platform-suffix strip (`filePath.slice(0, -10)`) done
first by `getFilePathFormat`. -/
def stripNativeSuffix (filePath : String) : String :=
  if strEndsWith filePath ".native.js" then strDropRight filePath 10 else filePath

/-- Source `getFilePathFormat` (utils.js line 243-254): strip a `.native.js`
platform suffix, classify `.mjs`/`.cjs` by extension, otherwise consult the
nearest manifest's `type` field. -/
def getFilePathFormat (vfs : Vfs) (fuel : Nat) (filePath : String) : CodeFormat :=
  let filePath := stripNativeSuffix filePath
  if strEndsWith filePath ".mjs" then .ESM
  else if strEndsWith filePath ".cjs" then .CJS
  else if (getNearestPkg vfs fuel filePath).bind Pkg.type? = some "module" then .ESM
  else .CJS

/-- Source `getDtsFilePathFormat` (utils.js line 261-266). -/
def getDtsFilePathFormat (vfs : Vfs) (fuel : Nat) (filePath : String) : CodeFormat :=
  if strEndsWith filePath ".d.mts" then .ESM
  else if strEndsWith filePath ".d.cts" then .CJS
  else if (getNearestPkg vfs fuel filePath).bind Pkg.type? = some "module" then .ESM
  else .CJS

/-- Source `getCodeFormatExtension` from utils.js. -/
def getCodeFormatExtension : CodeFormat → String
  | .ESM => ".mjs"
  | .CJS => ".cjs"
  | _ => ".js"

/-- Source `getDtsCodeFormatExtension` from utils.js. -/
def getDtsCodeFormatExtension : CodeFormat → String
  | .ESM => ".mts"
  | .CJS => ".cts"
  | _ => ".ts"

/-- Source `isExplicitExtension` from utils.js. -/
def isExplicitExtension (path : String) : Bool :=
  strEndsWith path ".mjs" || strEndsWith path ".cjs"

/-- Source `isFilePathRawTs` from utils.js. -/
def isFilePathRawTs (filePath : String) : Bool :=
  (strEndsWith filePath ".ts" && !(strEndsWith filePath ".d.ts")) ||
  strEndsWith filePath ".tsx"

/-- Source `getAdjacentDtsPath` (utils.js line 462-468): the regex replace
`\.([mc]?)jsx?$` → `.d.$1ts`, compiled into suffix cases. -/
def getAdjacentDtsPath (filePath : String) : String :=
  if strEndsWith filePath ".mjsx" then strDropRight filePath 5 ++ ".d.mts"
  else if strEndsWith filePath ".cjsx" then strDropRight filePath 5 ++ ".d.cts"
  else if strEndsWith filePath ".mjs" then strDropRight filePath 4 ++ ".d.mts"
  else if strEndsWith filePath ".cjs" then strDropRight filePath 4 ++ ".d.cts"
  else if strEndsWith filePath ".jsx" then strDropRight filePath 4 ++ ".d.ts"
  else if strEndsWith filePath ".js" then strDropRight filePath 3 ++ ".d.ts"
  else filePath

/-- Source `isDtsFile` from utils.js: the regex `\.d\.[mc]?ts$`. -/
def isDtsFile (filePath : String) : Bool :=
  strEndsWith filePath ".d.ts" || strEndsWith filePath ".d.mts" ||
  strEndsWith filePath ".d.cts"

/-- Source `isRelativePath` from utils.js. -/
def isRelativePath (filePath : String) : Bool :=
  match filePath.data with
  | '.' :: _ => true
  | '/' :: _ => false
  | _ => !(strIncludes filePath ":")

/-- Source `isAbsolutePath` from utils.js. -/
def isAbsolutePath (filePath : String) : Bool :=
  match filePath.data with
  | '/' :: _ => true
  | c0 :: ':' :: _ => c0.isAlpha
  | _ => false

/-! ### Flow and shebang detection (utils.js) -/

/-- After a Flow marker opener, skip `\s*` and require `@flow`. -/
def flowTail (r : List Char) : Bool :=
  (matchLit "@flow".data (r.dropWhile isJsSpace)).isSome

/-- Source `FLOW_COMMENT_RE = /^\s*(?:\/\/|\/\*\*?|\*)\s*@flow/m` matched at one
line start. -/
def flowMarkerAt (s : List Char) : Bool :=
  let t := s.dropWhile isJsSpace
  (match matchLit "//".data t with | some r => flowTail r | none => false) ||
  (match matchLit "/**".data t with | some r => flowTail r | none => false) ||
  (match matchLit "/*".data t with | some r => flowTail r | none => false) ||
  (match t with | '*' :: r => flowTail r | _ => false)

/-- A multiline `^` position: string start or right after a line terminator. -/
def atLineStart : Option Char → Bool
  | none => true
  | some c => isLineTerm c

/-- Search all line starts for the Flow marker. -/
def flowSearch : Option Char → List Char → Bool
  | prev, [] => atLineStart prev && flowMarkerAt []
  | prev, c :: cs => (atLineStart prev && flowMarkerAt (c :: cs)) || flowSearch (some c) cs

/-- Source `isFileContentLintable` from utils.js: no initial `@flow` comment. -/
def isFileContentLintable (fileContent : String) : Bool :=
  !(flowSearch none fileContent.data)

/-- Source `/#!\s*\/usr\/bin\/env/` matched at the start of `s`. -/
def shebangAt (s : List Char) : Bool :=
  match matchLit "#!".data s with
  | some rest => (matchLit "/usr/bin/env".data (rest.dropWhile isJsSpace)).isSome
  | none => false

/-- Search every position for the shebang pattern. -/
def shebangSearch : List Char → Bool
  | [] => false
  | c :: cs => shebangAt (c :: cs) || shebangSearch cs

/-- Source `startsWithShebang` from utils.js. -/
def startsWithShebang (code : String) : Bool :=
  shebangSearch code.data

/-! ### Generic object helpers (utils.js) -/

/-- One step of JavaScript property access `v[p]` on a JSON value. -/
def jsMember : JsonValue → String → Option JsonValue
  | .obj kvs, k => (kvs.find? (fun kv => kv.1 == k)).map Prod.snd
  | .arr xs, k =>
    match k.toNat? with
    | some i => if toString i = k then xs.get? i else none
    | none => none
  | _, _ => none

/-- Source `getPkgPathValue` (utils.js line 403-409). JavaScript note: reading a
property of `undefined` or `null` throws, which would reject the whole pass
and emit nothing; an absent value absorbs here instead. -/
def getPkgPathValue (pkg : JsonValue) (path : List String) : Option JsonValue :=
  path.foldl (fun v p => v.bind (fun x => jsMember x p)) (some pkg)

mutual
/-- Source `objectHasKeyNested` (utils.js line 437-444); `for..in` over arrays visits
indices, and `typeof x === 'object'` holds for objects, arrays and `null`. -/
def objectHasKeyNested : JsonValue → String → Bool
  | .obj kvs, key => objectHasKeyNestedEntries kvs key
  | .arr xs, key => objectHasKeyNestedElems xs 0 key
  | _, _ => false

/-- Entry traversal for `objectHasKeyNested`. -/
def objectHasKeyNestedEntries : List (String × JsonValue) → String → Bool
  | [], _ => false
  | (k, v) :: rest, key =>
    (k == key) || (jsTypeof v == "object" && objectHasKeyNested v key) ||
    objectHasKeyNestedEntries rest key

/-- Index traversal for `objectHasKeyNested`. -/
def objectHasKeyNestedElems : List JsonValue → Nat → String → Bool
  | [], _, _ => false
  | v :: rest, i, key =>
    (toString i == key) || (jsTypeof v == "object" && objectHasKeyNested v key) ||
    objectHasKeyNestedElems rest (i + 1) key
end

mutual
/-- Source `objectHasValueNested` (utils.js line 450-457). -/
def objectHasValueNested : JsonValue → (String → Bool) → Bool
  | .obj kvs, pred => objectHasValueNestedEntries kvs pred
  | .arr xs, pred => objectHasValueNestedElems xs pred
  | _, _ => false

/-- Entry traversal for `objectHasValueNested`. -/
def objectHasValueNestedEntries : List (String × JsonValue) → (String → Bool) → Bool
  | [], _ => false
  | (_, v) :: rest, pred =>
    (match v with | .str s => pred s | _ => false) ||
    (jsTypeof v == "object" && objectHasValueNested v pred) ||
    objectHasValueNestedEntries rest pred

/-- Element traversal for `objectHasValueNested`. -/
def objectHasValueNestedElems : List JsonValue → (String → Bool) → Bool
  | [], _ => false
  | v :: rest, pred =>
    (match v with | .str s => pred s | _ => false) ||
    (jsTypeof v == "object" && objectHasValueNested v pred) ||
    objectHasValueNestedElems rest pred
end

/-- A `{ value, path }` pair returned by `resolveExports`. -/
structure ResolvedEntry where
  value : String
  path : List String

mutual
/-- Source `resolveExports` (utils.js line 489-506): the simplified conditional
`exports` resolver. An array resolves through its first element; an empty
array resolves like `undefined` (no result). -/
def resolveExports : JsonValue → List String → List String → Option ResolvedEntry
  | .str s, _, currentPath => some ⟨s, currentPath⟩
  | .arr [], _, _ => none
  | .arr (x :: _), conditions, currentPath =>
    resolveExports x conditions (currentPath ++ ["0"])
  | .obj kvs, conditions, currentPath => resolveExportsEntries kvs conditions currentPath
  | _, _, _ => none

/-- Key loop of `resolveExports`: a matching `default` with no nested result
ends the search with no result (`if (result || key === 'default') return result`). -/
def resolveExportsEntries :
    List (String × JsonValue) → List String → List String → Option ResolvedEntry
  | [], _, _ => none
  | (key, v) :: rest, conditions, currentPath =>
    if conditions.contains key || key = "default" then
      match resolveExports v conditions (currentPath ++ [key]) with
      | some r => some r
      | none =>
        if key = "default" then none
        else resolveExportsEntries rest conditions currentPath
    else resolveExportsEntries rest conditions currentPath
end

example :
    resolveExports (.obj [("import", .str "./a.mjs"), ("default", .str "./a.js")])
      ["import"] [] = some ⟨"./a.mjs", ["import"]⟩ := rfl
example :
    resolveExports (.obj [("require", .str "./r.js"), ("default", .str "./a.js")])
      ["import"] ["exports"] = some ⟨"./a.js", ["exports", "default"]⟩ := rfl


/-! ### `exportsGlob` (utils.js line 136-221)

The derived regular expression `^lit0(.+)lit1(.+)...litn$` (literal pieces are
the `split('*')` parts, escaped; each `*` becomes a capturing `(.+)`) is
compiled into a backtracking matcher. Each capture is nonempty and free of
line terminators (`.`); candidates are tried longest first, replaying the
greedy capture choice of the JavaScript engine. -/

/-- Length of the longest prefix `(.+)` may consume (no line terminators). -/
def dotRun : List Char → Nat
  | [] => 0
  | c :: cs => if isLineTerm c then 0 else 1 + dotRun cs

/-- Try capture lengths `k, k-1, ..., 1` for one `(.+)` group; `f` matches the
remaining pattern against the rest of the string. -/
def tryLens (f : List Char → Option (List String)) (s : List Char) :
    Nat → Option (List String)
  | 0 => none
  | k + 1 =>
    match f (s.drop (k + 1)) with
    | some cs => some (⟨s.take (k + 1)⟩ :: cs)
    | none => tryLens f s k

/-- Greedy match of the pieces-with-`(.+)`-groups pattern against `s`,
returning the list of captures on success. -/
def matchPieces : List (List Char) → List Char → Option (List String)
  | [], s => if s.isEmpty then some [] else none
  | [p], s => if matchLit p s = some [] then some [] else none
  | p :: rest₁ :: rest, s =>
    match matchLit p s with
    | none => none
    | some s2 => tryLens (fun t => matchPieces (rest₁ :: rest) t) s2 (dotRun s2)

example : matchPieces (splitOnChar '*' "/p/*.js".data) "/p/a.js".data = some ["a"] := rfl
example : matchPieces (splitOnChar '*' "/p/*/x/*.js".data) "/p/a/x/a.js".data =
    some ["a", "a"] := rfl
example : matchPieces (splitOnChar '*' "/p/*/x/*.js".data) "/p/a/x/b.js".data =
    some ["a", "b"] := rfl
example : matchPieces (splitOnChar '*' "/p/*.js".data) "/p/.js".data = none := rfl

/-- The keys of `exports` whose value is `null`, in `for..in` order
(utils.js line 154-163); `for..in` over an array visits indices. -/
def nullKeysIdx : List JsonValue → Nat → List String
  | [], _ => []
  | v :: rest, i =>
    (match v with | .null => [toString i] | _ => []) ++ nullKeysIdx rest (i + 1)

/-- Keys of a value mapped to `null`, as collected for `excludedExportKeys`. -/
def nullExcludedKeys : JsonValue → List String
  | .obj kvs =>
    (kvs.filter (fun kv => match kv.2 with | .null => true | _ => false)).map Prod.fst
  | .arr xs => nullKeysIdx xs 0
  | _ => []

/-- Source `topDir`: `globStr.split('*')[0].match(/(.+)[/\\]/)?.[1]` — the first piece
truncated at its last separator, which must have at least one char before it. -/
def lastSepIdx : List Char → Nat → Option Nat
  | [], _ => none
  | c :: cs, i =>
    match lastSepIdx cs (i + 1) with
    | some j => some j
    | none => if c = '/' || c = '\\' then some i else none

/-- Compute the `topDir` of a glob's first literal piece. -/
def topDirOf (p0 : List Char) : Option String :=
  match lastSepIdx p0 0 with
  | some i => if 1 ≤ i then some ⟨p0.take i⟩ else none
  | none => none

/-- The per-file decision of `scanDir` (utils.js line 187-215): regex match,
all-captures-equal check, and `null`-excluded-key check. `true` = include. -/
def globFileDecision (globPieces : List (List Char)) (exclActive : Bool)
    (exclKeys : List String) (exportsKey : String) (itemPath : String) : Bool :=
  match matchPieces globPieces (slash itemPath).data with
  | none => false
  | some captures =>
    let firstCapture := captures.headD "undefined"
    if captures.length ≥ 2 && captures.any (fun c => c ≠ firstCapture) then false
    else if exclActive && !exclKeys.isEmpty &&
        exclKeys.any (fun key =>
          (matchPieces (splitOnChar '*' key.data)
            (replaceFirst exportsKey "*" firstCapture).data).isSome) then false
    else true

mutual
/-- The recursive `scanDir` of `exportsGlob`; fuel bounds the directory
recursion (the source terminates on a finite file tree). -/
def exportsGlobScan (vfs : Vfs) (globPieces : List (List Char))
    (packedFiles : Option (List String)) (exclActive : Bool)
    (exclKeys : List String) (exportsKey : String) :
    Nat → String → List String
  | 0, _ => []
  | fuel + 1, dirPath =>
    exportsGlobItems vfs globPieces packedFiles exclActive exclKeys exportsKey
      fuel dirPath (vfs.readDir dirPath)

/-- The `for (const item of items)` loop of `scanDir`. -/
def exportsGlobItems (vfs : Vfs) (globPieces : List (List Char))
    (packedFiles : Option (List String)) (exclActive : Bool)
    (exclKeys : List String) (exportsKey : String) :
    Nat → String → List String → List String
  | _, _, [] => []
  | fuel + 1, dirPath, item :: items =>
    let itemPath := vfs.pathJoin dirPath item
    (if (match packedFiles with
         | none => true
         | some files => files.any (fun f => strStartsWith f itemPath)) then
      if vfs.isPathDir itemPath then
        exportsGlobScan vfs globPieces packedFiles exclActive exclKeys exportsKey
          fuel itemPath
      else if globFileDecision globPieces exclActive exclKeys exportsKey itemPath then
        [itemPath]
      else []
    else []) ++
    exportsGlobItems vfs globPieces packedFiles exclActive exclKeys exportsKey
      fuel dirPath items
  | 0, _, _ :: _ => []
end

/-- Source `exportsGlob` from utils.js. `exportsKey`/`exports` are optional as in the
source; exclusion keys are collected only when both are truthy. -/
def exportsGlob (globStr : String) (vfs : Vfs) (packedFiles : Option (List String))
    (exportsKey : Option String) (exports : Option JsonValue) (fuel : Nat) :
    List String :=
  let globPieces := splitOnChar '*' (slash globStr).data
  let exclActive :=
    (match exportsKey with | some k => !k.data.isEmpty | none => false) &&
    (match exports with | some e => e.truthy | none => false)
  let exclKeys :=
    if exclActive then nullExcludedKeys (exports.getD .null) else []
  match topDirOf ((splitOnChar '*' globStr.data).headD []) with
  | some topDir =>
    if vfs.isPathDir topDir then
      exportsGlobScan vfs globPieces packedFiles exclActive exclKeys
        (exportsKey.getD "") fuel topDir
    else []
  | none => []

/-! ### core.js: context, messages, and shared check helpers -/

/-- A diagnostic message (`Message` of core.js): `{ code, args, path, type }`.
Property values are JSON-like; object properties whose value is `undefined`
are omitted. -/
structure Message where
  code : String
  args : List (String × JsonValue)
  path : List String
  type : String

/-- String form of a `CodeFormat`, as stored in message args. -/
def CodeFormat.toStr : CodeFormat → String
  | .ESM => "ESM"
  | .CJS => "CJS"
  | .mixed => "mixed"
  | .unknown => "unknown"

/-- Modelled from the spec: `constants.js` is not under `src/`. The spec fixes
only the roles of these lists — lintable JS file extensions (§1 non-goals,
"only lint JS files"), invalid JSX extensions, and the recognized
"platform-ish"/browser-ish condition keys (§4.3, glossary) — so their contents
are parameters of the model. -/
structure Consts where
  lintableFileExtensions : List String
  invalidJsxExtensions : List String
  knownBrowserishConditions : List String

/-- The closure state of `core` needed by the recursive checks: the VFS, the
package directory, the parsed root manifest, the published `exports` and
`browser` field values, the packed-files allow list, and the constant lists. -/
structure Ctx where
  vfs : Vfs
  fuel : Nat
  pkgDir : String
  rootPkg : JsonValue
  exports? : Option JsonValue
  browser? : Option JsonValue
  browserPkgPath : List String
  packedFiles? : Option (List String)
  consts : Consts

/-- Source `isFilePathLintable` from utils.js (over the modelled extension list). -/
def isFilePathLintable (consts : Consts) (filePath : String) : Bool :=
  consts.lintableFileExtensions.any (fun ext => strEndsWith filePath ext)

/-- Source `hasInvalidJsxExtension` of core.js (line 611-626): the message when an
invalid JSX extension matches. -/
def hasInvalidJsxExtension (consts : Consts) (filePath : String)
    (currentPath : List String) (globbedFilePath : Option String) : Option Message :=
  (consts.invalidJsxExtensions.find? (fun ext => strEndsWith filePath ext)).map
    (fun matched =>
      { code := "FILE_INVALID_JSX_EXTENSION"
        args := [("actualExtension", .str matched)] ++
          (match globbedFilePath with
           | some g => [("globbedFilePath", .str g)]
           | none => [])
        path := currentPath
        type := "error" })

/-- Source `ensureTypeOfField` of core.js (line 633-648): the messages it pushes and
whether the field type is acceptable. -/
def ensureTypeOfField (fieldValue : JsonValue) (expectTypes : List String)
    (pkgPath : List String) : List Message × Bool :=
  if !(expectTypes.contains (jsTypeof fieldValue)) then
    ([{ code := "FIELD_INVALID_VALUE_TYPE"
        args := [("actualType", .str (jsTypeof fieldValue)),
                 ("expectTypes", .arr (expectTypes.map .str))]
        path := pkgPath
        type := "error" }], false)
  else ([], true)

/-- The `FILE_NOT_PUBLISHED` messages for a successful read in `readFile`
(core.js line 498-529). -/
def fileNotPublishedMsgs (ctx : Ctx) (readPath : String)
    (pkgPath : Option (List String)) : List Message :=
  match pkgPath with
  | some p =>
    if (match ctx.packedFiles? with
        | some pf => !pf.contains readPath
        | none => false) then
      [{ code := "FILE_NOT_PUBLISHED", args := [], path := p, type := "error" }]
    else []
  | none => []

/-- The extension-retry loop of `readFile`. -/
def coreReadFileExts (ctx : Ctx) (path : String) (pkgPath : Option (List String)) :
    List String → List Message × Option String
  | [] =>
    ((match pkgPath with
      | some p => [{ code := "FILE_DOES_NOT_EXIST", args := [], path := p, type := "error" }]
      | none => []), none)
  | ext :: rest =>
    let ext := if strStartsWith ext "/" && strEndsWith path "/" then (⟨ext.data.drop 1⟩ : String) else ext
    match ctx.vfs.readFile (path ++ ext) with
    | some content => (fileNotPublishedMsgs ctx (path ++ ext) pkgPath, some content)
    | none => coreReadFileExts ctx path pkgPath rest

/-- Source `readFile` of core.js (line 498-529): messages pushed and content read. -/
def coreReadFile (ctx : Ctx) (path : String) (pkgPath : Option (List String))
    (tryExtensions : List String) : List Message × Option String :=
  match ctx.vfs.readFile path with
  | some content => (fileNotPublishedMsgs ctx path pkgPath, some content)
  | none => coreReadFileExts ctx path pkgPath tryExtensions

/-- Source `getExportsFiles` of core.js (line 672-680). -/
def getExportsFiles (ctx : Ctx) (exportsValue : String) (exportsKey : Option String) :
    List String :=
  let exportsPath :=
    if isRelativePath exportsValue then ctx.vfs.pathJoin ctx.pkgDir exportsValue
    else exportsValue
  if strIncludes exportsValue "*" then
    exportsGlob exportsPath ctx.vfs ctx.packedFiles? exportsKey ctx.exports? ctx.fuel
  else [exportsPath]

/-- JavaScript `key in value` for the `exportsValue in browser` test. -/
def jsHasProperty : JsonValue → String → Bool
  | .obj kvs, k => kvs.any (fun kv => kv.1 == k)
  | .arr xs, k =>
    (match k.toNat? with
     | some i => if toString i = k then decide (i < xs.length) else false
     | none => false)
  | _, _ => false

/-- Object property lookup used for `exportsValue[key]` on a condition map. -/
def jsLookup (kvs : List (String × JsonValue)) (key : String) : Option JsonValue :=
  (kvs.find? (fun kv => kv.1 == key)).map Prod.snd

/-! ### core.js: the `crawlExportsOrImports` leaf (string) branch
(line 694-879) -/

/-- The per-file format check of the leaf branch run on the file content after
a successful, lintable read (core.js line 809-875). -/
def leafContentCheck (ctx : Ctx) (currentPath : List String)
    (isImports isAfterNodeCondition isGlob : Bool)
    (exportsValue filePath content : String) : List Message :=
  if !(isFileContentLintable content) then []
  else if currentPath.contains "module" then
    if getCodeFormat content = .CJS then
      [{ code := if isImports then "IMPORTS_MODULE_SHOULD_BE_ESM" else "EXPORTS_MODULE_SHOULD_BE_ESM"
         args := [], path := currentPath, type := "error" }]
    else []
  else if isAfterNodeCondition || currentPath.contains "browser" then []
  else
    let actualFormat := getCodeFormat content
    let expectFormat := getFilePathFormat ctx.vfs ctx.fuel filePath
    if actualFormat ≠ expectFormat ∧ actualFormat ≠ .unknown ∧ actualFormat ≠ .mixed then
      if actualFormat = .ESM && (strIncludes filePath "browser" || strIncludes filePath "bundler") then
        []
      else
        let actualExtension := ctx.vfs.getExtName filePath
        let expectExtension := getCodeFormatExtension actualFormat
        if isGlob && ctx.vfs.isPathExist (replaceLast filePath actualExtension expectExtension) then
          []
        else
          [{ code := if isExplicitExtension actualExtension then "FILE_INVALID_EXPLICIT_FORMAT"
                     else "FILE_INVALID_FORMAT"
             args := [("actualFormat", .str actualFormat.toStr),
                      ("expectFormat", .str expectFormat.toStr),
                      ("actualExtension", .str actualExtension),
                      ("expectExtension", .str expectExtension),
                      ("actualFilePath", .str (if isGlob then "./" ++ ctx.vfs.pathRelative ctx.pkgDir filePath else exportsValue))]
             path := currentPath
             type := "warning" }]
    else []

/-- One resolved file of the leaf branch: JSX check, lintability gate, read,
then content check. -/
def leafFileStep (ctx : Ctx) (currentPath : List String)
    (isImports isAfterNodeCondition isGlob : Bool)
    (exportsValue filePath : String) : List Message :=
  match hasInvalidJsxExtension ctx.consts filePath currentPath
      (if isGlob then some ("./" ++ ctx.vfs.pathRelative ctx.pkgDir filePath) else none) with
  | some m => [m]
  | none =>
    if !(isFilePathLintable ctx.consts filePath) then
      if isAbsolutePath filePath && !(isFilePathRawTs filePath) then
        (coreReadFile ctx filePath (some currentPath) []).1
      else []
    else
      match coreReadFile ctx filePath (some currentPath) [] with
      | (rmsgs, none) => rmsgs
      | (rmsgs, some content) =>
        rmsgs ++ leafContentCheck ctx currentPath isImports isAfterNodeCondition isGlob
          exportsValue filePath content

/-- The `for (const filePath of exportsFiles)` loop of the leaf branch. -/
def leafFilesLoop (ctx : Ctx) (currentPath : List String)
    (isImports isAfterNodeCondition isGlob : Bool) (exportsValue : String) :
    List String → List Message
  | [] => []
  | filePath :: rest =>
    leafFileStep ctx currentPath isImports isAfterNodeCondition isGlob exportsValue filePath ++
    leafFilesLoop ctx currentPath isImports isAfterNodeCondition isGlob exportsValue rest

/-- The deprecated trailing-slash subpath-mapping diagnostic of the leaf
branch (core.js line 705-722); severity drops to a suggestion when the
manifest already holds the wildcard form of the same key path. -/
def leafDeprecatedMsgs (ctx : Ctx) (exportsValue0 : String) (currentPath : List String)
    (isImports : Bool) : List Message :=
  if strEndsWith exportsValue0 "/" then
    let expectPath := currentPath.map
      (fun part => if strEndsWith part "/" then part ++ "*" else part)
    let expectPathAlreadyExist :=
      match getPkgPathValue ctx.rootPkg expectPath with
      | some jv => jv.truthy
      | none => false
    [{ code := if isImports then "IMPORTS_GLOB_NO_DEPRECATED_SUBPATH_MAPPING"
               else "EXPORTS_GLOB_NO_DEPRECATED_SUBPATH_MAPPING"
       args := [("expectPath", .arr (expectPath.map .str)),
                ("expectValue", .str (exportsValue0 ++ "*"))]
       path := currentPath
       type := if expectPathAlreadyExist then "suggestion" else "error" }]
  else []

/-- The invalid-value diagnostic of the leaf branch (core.js line 728-737). -/
def leafInvalidValueMsgs (exportsValue : String) (currentPath : List String)
    (isImports : Bool) : List Message :=
  if !(strStartsWith exportsValue "./") then
    [{ code := if isImports then "IMPORTS_VALUE_INVALID" else "EXPORTS_VALUE_INVALID"
       args := [("suggestValue", .str ("./" ++ dropLeadingSlashes exportsValue))]
       path := currentPath
       type := "error" }]
  else []

/-- The browser-field shadowing diagnostic of the leaf branch
(core.js line 759-781). -/
def leafBrowserConflictMsgs (ctx : Ctx) (exportsValue : String)
    (currentPath : List String) (isImports : Bool) : List Message :=
  if !isImports &&
      (match ctx.browser? with
       | some b => jsTypeof b == "object" && jsHasProperty b exportsValue
       | none => false) then
    match ctx.consts.knownBrowserishConditions.find? (fun c => currentPath.contains c) with
    | some browserishCondition =>
      [{ code := "EXPORTS_VALUE_CONFLICTS_WITH_BROWSER"
         args := [("browserPath", .arr ((ctx.browserPkgPath ++ [exportsValue]).map .str)),
                  ("browserishCondition", .str browserishCondition)]
         path := currentPath
         type := "warning" }]
    | none => []
  else []

/-- The glob-matched-no-files diagnostic (core.js line 747-756). -/
def leafNoMatchedFilesMsg (currentPath : List String) (isImports : Bool) : Message :=
  { code := if isImports then "IMPORTS_GLOB_NO_MATCHED_FILES"
            else "EXPORTS_GLOB_NO_MATCHED_FILES"
    args := [], path := currentPath, type := "warning" }

/-- The leaf (string-valued) branch of `crawlExportsOrImports`
(core.js line 694-879). -/
def leafMessages (ctx : Ctx) (exportsValue0 : String) (currentPath : List String)
    (isImports isAfterNodeCondition : Bool) : List Message :=
  if isImports && !(strStartsWith exportsValue0 ".") then []
  else
    let exportsValue :=
      if strEndsWith exportsValue0 "/" then exportsValue0 ++ "*" else exportsValue0
    let isGlob := strIncludes exportsValue "*"
    let exportsKey := currentPath.get? 1
    let exportsFiles := getExportsFiles ctx exportsValue exportsKey
    leafDeprecatedMsgs ctx exportsValue0 currentPath isImports ++
    (if isGlob && exportsFiles.isEmpty then
      leafInvalidValueMsgs exportsValue currentPath isImports ++
      [leafNoMatchedFilesMsg currentPath isImports]
    else
      leafInvalidValueMsgs exportsValue currentPath isImports ++
      leafBrowserConflictMsgs ctx exportsValue currentPath isImports ++
      leafFilesLoop ctx currentPath isImports isAfterNodeCondition isGlob exportsValue
        exportsFiles)

/-! ### core.js: the condition-map (object) branch checks (line 900-1019) -/

/-- The `EXPORTS_TYPES_SHOULD_BE_FIRST` check (core.js line 904-955). -/
def typesFirstMessages (kvs : List (String × JsonValue)) (currentPath : List String)
    (isImports : Bool) : List Message :=
  let exportsKeys := kvs.map Prod.fst
  if !isImports && exportsKeys.contains "types" && exportsKeys.head? != some "types" then
    let precedingKeys := (exportsKeys.take (exportsKeys.indexOf "types")).filter
      (fun key =>
        if strStartsWith key "types" then false
        else
          match jsLookup kvs key with
          | some (.str v) => !(isFilePathRawTs v)
          | some v =>
            !(jsTypeof v == "object" && objectHasValueNested v isFilePathRawTs)
          | none => true)
    let isPrecededByNestedTypesCondition := precedingKeys.any (fun key =>
      match jsLookup kvs key with
      | some v => jsTypeof v == "object" && objectHasKeyNested v "types"
      | none => false)
    if !precedingKeys.isEmpty && !isPrecededByNestedTypesCondition then
      [{ code := "EXPORTS_TYPES_SHOULD_BE_FIRST", args := []
         path := currentPath ++ ["types"], type := "error" }]
    else []
  else []

/-- The module-before-require check (core.js line 957-972). -/
def moduleRequireMessages (kvs : List (String × JsonValue)) (currentPath : List String)
    (isImports : Bool) : List Message :=
  let exportsKeys := kvs.map Prod.fst
  if exportsKeys.contains "module" && exportsKeys.contains "require" &&
      decide (exportsKeys.indexOf "module" > exportsKeys.indexOf "require") then
    [{ code := if isImports then "IMPORTS_MODULE_SHOULD_PRECEDE_REQUIRE"
               else "EXPORTS_MODULE_SHOULD_PRECEDE_REQUIRE"
       args := [], path := currentPath ++ ["module"], type := "error" }]
  else []

/-- The default-must-be-last check (core.js line 974-987). -/
def defaultLastMessages (kvs : List (String × JsonValue)) (currentPath : List String)
    (isImports : Bool) : List Message :=
  let exportsKeys := kvs.map Prod.fst
  if exportsKeys.contains "default" && exportsKeys.getLast? != some "default" then
    [{ code := if isImports then "IMPORTS_DEFAULT_SHOULD_BE_LAST"
               else "EXPORTS_DEFAULT_SHOULD_BE_LAST"
       args := [], path := currentPath ++ ["default"], type := "error" }]
  else []

/-- The structural checks run at one condition-map level, in push order. -/
def conditionMapMessages (kvs : List (String × JsonValue)) (currentPath : List String)
    (isImports : Bool) : List Message :=
  typesFirstMessages kvs currentPath isImports ++
  moduleRequireMessages kvs currentPath isImports ++
  defaultLastMessages kvs currentPath isImports

mutual
/-- Source `crawlExportsOrImports` of core.js (line 688-1021). A string is the leaf
branch; an array is the deprecated fallback branch; an object is the
condition-map branch. `null` and the other falsy primitives are skipped, and a
truthy primitive reaches the object branch with no keys, emitting nothing —
both collapse to the final case. -/
def crawlExportsOrImports (ctx : Ctx) :
    JsonValue → List String → Bool → Bool → List Message
  | .str sv, currentPath, isImports, isAfterNodeCondition =>
    leafMessages ctx sv currentPath isImports isAfterNodeCondition
  | .arr xs, currentPath, isImports, isAfterNodeCondition =>
    { code := if isImports then "IMPORTS_FALLBACK_ARRAY_USE" else "EXPORTS_FALLBACK_ARRAY_USE"
      args := [], path := currentPath, type := "warning" } ::
    crawlArrayItems ctx xs 0 currentPath isImports isAfterNodeCondition
  | .obj kvs, currentPath, isImports, isAfterNodeCondition =>
    conditionMapMessages kvs currentPath isImports ++
    crawlEntries ctx kvs currentPath isImports
      (isImports && (currentPath.getLast? == some "imports")) isAfterNodeCondition
  | _, _, _, _ => []

/-- The positional recursion into a fallback array. -/
def crawlArrayItems (ctx : Ctx) :
    List JsonValue → Nat → List String → Bool → Bool → List Message
  | [], _, _, _, _ => []
  | v :: rest, i, currentPath, isImports, isAfterNodeCondition =>
    crawlExportsOrImports ctx v (currentPath ++ [toString i]) isImports
      isAfterNodeCondition ++
    crawlArrayItems ctx rest (i + 1) currentPath isImports isAfterNodeCondition

/-- The `for (const key of exportsKeys)` loop of the condition-map branch:
the imports-key check, the recursion, and the after-`node` flag threading. -/
def crawlEntries (ctx : Ctx) :
    List (String × JsonValue) → List String → Bool → Bool → Bool → List Message
  | [], _, _, _, _ => []
  | (key, v) :: rest, currentPath, isImports, isCurrentPathImports, isKeyAfterNode =>
    (if isCurrentPathImports && !(strStartsWith key "#") then
      [{ code := "IMPORTS_KEY_INVALID"
         args := [("suggestKey", .str ("#" ++ dropLeadingSlashes key))]
         path := currentPath ++ [key], type := "error" }]
    else []) ++
    crawlExportsOrImports ctx v (currentPath ++ [key]) isImports isKeyAfterNode ++
    crawlEntries ctx rest currentPath isImports isCurrentPathImports
      (isKeyAfterNode || key == "node")
end

/-! ### core.js: `main` and `bin` checks -/

/-- Is a published field value `== null` (absent or JSON `null`)? -/
def jsIsNullish : Option JsonValue → Bool
  | none => true
  | some .null => true
  | some _ => false

/-- The format part of the `main` task, run on the content successfully read
(core.js line 207-236). -/
def mainContentCheck (ctx : Ctx) (mainPath : String) (mainPkgPath : List String)
    (mainContent : String) : List Message :=
  let actualFormat := getCodeFormat mainContent
  let expectFormat := getFilePathFormat ctx.vfs ctx.fuel mainPath
  (if actualFormat ≠ expectFormat ∧ actualFormat ≠ .unknown ∧ actualFormat ≠ .mixed then
    let actualExtension := ctx.vfs.getExtName mainPath
    [{ code := if isExplicitExtension actualExtension then "FILE_INVALID_EXPLICIT_FORMAT"
               else "FILE_INVALID_FORMAT"
       args := [("actualFormat", .str actualFormat.toStr),
                ("expectFormat", .str expectFormat.toStr),
                ("actualExtension", .str actualExtension),
                ("expectExtension", .str (getCodeFormatExtension actualFormat))]
       path := mainPkgPath
       type := "warning" }]
  else []) ++
  (if actualFormat = .ESM ∧ jsIsNullish ctx.exports? then
    [{ code := "HAS_ESM_MAIN_BUT_NO_EXPORTS", args := [], path := mainPkgPath
       type := "suggestion" }]
  else [])

/-- The whole `main` task of core.js (line 196-238). -/
def mainCheck (ctx : Ctx) (main : JsonValue) (mainPkgPath : List String) : List Message :=
  match ensureTypeOfField main ["string"] mainPkgPath with
  | (msgs, false) => msgs
  | (_, true) =>
    match main with
    | .str mainStr =>
      let mainPath := ctx.vfs.pathJoin ctx.pkgDir mainStr
      match coreReadFile ctx mainPath (some mainPkgPath) [".js", "/index.js"] with
      | (rmsgs, none) => rmsgs
      | (rmsgs, some mainContent) =>
        rmsgs ++
        (match hasInvalidJsxExtension ctx.consts mainStr mainPkgPath none with
         | some m => [m]
         | none =>
           if !(isFilePathLintable ctx.consts mainStr) then []
           else mainContentCheck ctx mainPath mainPkgPath mainContent)
    | _ => []

/-- The per-content part of the `bin` string check (core.js line 1241-1277). -/
def binContentCheck (ctx : Ctx) (binPath : String) (currentPath : List String)
    (binContent : String) : List Message :=
  (if !(startsWithShebang binContent) then
    [{ code := "BIN_FILE_NOT_EXECUTABLE", args := [], path := currentPath
       type := "error" }]
  else []) ++
  (let actualFormat := getCodeFormat binContent
   let expectFormat := getFilePathFormat ctx.vfs ctx.fuel binPath
   if actualFormat ≠ expectFormat ∧ actualFormat ≠ .unknown ∧ actualFormat ≠ .mixed then
    let actualExtension := ctx.vfs.getExtName binPath
    [{ code := if isExplicitExtension actualExtension then "FILE_INVALID_EXPLICIT_FORMAT"
               else "FILE_INVALID_FORMAT"
       args := [("actualFormat", .str actualFormat.toStr),
                ("expectFormat", .str expectFormat.toStr),
                ("actualExtension", .str actualExtension),
                ("expectExtension", .str (getCodeFormatExtension actualFormat))]
       path := currentPath
       type := "warning" }]
   else [])

mutual
/-- Source `crawlBin` of core.js (line 1233-1287). -/
def crawlBin (ctx : Ctx) : JsonValue → List String → List Message
  | .str binStr, currentPath =>
    let binPath := ctx.vfs.pathJoin ctx.pkgDir binStr
    (match coreReadFile ctx binPath (some currentPath) [".js", "/index.js"] with
     | (rmsgs, none) => rmsgs
     | (rmsgs, some binContent) =>
       rmsgs ++
       (if !(isFilePathLintable ctx.consts binStr) then []
        else binContentCheck ctx binPath currentPath binContent))
  | .obj kvs, currentPath => crawlBinEntries ctx kvs currentPath
  | _, _ => []

/-- The nested-command loop of `crawlBin`. -/
def crawlBinEntries (ctx : Ctx) : List (String × JsonValue) → List String → List Message
  | [], _ => []
  | (key, v) :: rest, currentPath =>
    let binPath := currentPath ++ [key]
    (match ensureTypeOfField v ["string"] binPath with
     | (msgs, false) => msgs
     | (_, true) => crawlBin ctx v binPath) ++
    crawlBinEntries ctx rest currentPath
end

/-! ### core.js: the no-`exports` glob scan (line 386-452) -/

/-- The per-content format check of the no-`exports` scan. -/
def globScanFileCheck (ctx : Ctx) (filePath content : String) : List Message :=
  if !(isFileContentLintable content) then []
  else
    let actualFormat := getCodeFormat content
    let expectFormat := getFilePathFormat ctx.vfs ctx.fuel filePath
    if actualFormat ≠ expectFormat ∧ actualFormat ≠ .unknown ∧ actualFormat ≠ .mixed then
      if actualFormat = .ESM && (strIncludes filePath "browser" || strIncludes filePath "bundler") then
        []
      else
        let actualExtension := ctx.vfs.getExtName filePath
        let expectExtension := getCodeFormatExtension actualFormat
        if ctx.vfs.isPathExist (replaceLast filePath actualExtension expectExtension) then []
        else
          [{ code := if isExplicitExtension actualExtension then "FILE_INVALID_EXPLICIT_FORMAT"
                     else "FILE_INVALID_FORMAT"
             args := [("actualFormat", .str actualFormat.toStr),
                      ("expectFormat", .str expectFormat.toStr),
                      ("actualExtension", .str actualExtension),
                      ("expectExtension", .str expectExtension),
                      ("actualFilePath", .str ("/" ++ ctx.vfs.pathRelative ctx.pkgDir filePath))]
             path := ["name"]
             type := "warning" }]
    else []

/-- The file loop of the no-`exports` scan; `readFile(filePath, [])` passes an
empty (truthy) `pkgPath`. -/
def globScanFiles (ctx : Ctx) : List String → List Message
  | [] => []
  | filePath :: rest =>
    (match hasInvalidJsxExtension ctx.consts filePath ["name"]
        (some ("/" ++ ctx.vfs.pathRelative ctx.pkgDir filePath)) with
     | some m => [m]
     | none =>
       if !(isFilePathLintable ctx.consts filePath) then []
       else
         match coreReadFile ctx filePath (some []) [] with
         | (rmsgs, none) => rmsgs
         | (rmsgs, some content) => rmsgs ++ globScanFileCheck ctx filePath content) ++
    globScanFiles ctx rest

/-- The whole no-`exports` branch: glob every file under the package. -/
def noExportsScan (ctx : Ctx) : List Message :=
  globScanFiles ctx
    (exportsGlob (ctx.vfs.pathJoin ctx.pkgDir "./*") ctx.vfs ctx.packedFiles? none none ctx.fuel)

/-! ### core.js: the declaration pairing resolver (line 1023-1227) -/

/-- Source `getPublishedField` of utils.js (line 425-431). -/
def getPublishedField (pkgJson : JsonValue) (field : String) :
    Option JsonValue × List String :=
  match (jsMember pkgJson "publishConfig").bind (fun pc => jsMember pc field) with
  | some v => if v.truthy then (some v, ["publishConfig", field]) else (jsMember pkgJson field, [field])
  | none => (jsMember pkgJson field, [field])

/-- A truthy string field value (a truthy non-string `types`/`typings` would
crash the later path join and is not modelled). -/
def jsTruthyStr : Option JsonValue → Option String
  | some (.str sv) => if sv = "" then none else some sv
  | _ => none

/-- Source `findTypesFilePath` of core.js (line 1211-1227); note `readFile` content
truthiness: an existing but empty `./index.d.ts` does not count. -/
def findTypesFilePath (ctx : Ctx) (exportsKey : Option String) : Option String :=
  if exportsKey = none ∨ exportsKey = some "." then
    match jsTruthyStr (getPublishedField ctx.rootPkg "types").1 with
    | some t => some t
    | none =>
      match jsTruthyStr (getPublishedField ctx.rootPkg "typings").1 with
      | some t => some t
      | none =>
        match (coreReadFile ctx (ctx.vfs.pathJoin ctx.pkgDir "./index.d.ts") none []).2 with
        | some content => if content = "" then none else some "./index.d.ts"
        | none => none
  else none

/-- The expected declaration format (core.js line 1110-1138): derived from the
sibling code file resolved for the same conditions when the package is not
dual-publishing and that file exists; otherwise fall back to the condition
name (`import` → ESM, `require` → CJS). -/
def dtsExpectedFormat (ctx : Ctx) (format : String)
    (importResult requireResult : Option ResolvedEntry) (isDualPublish : Bool) :
    CodeFormat :=
  let fromSibling : Option CodeFormat :=
    if !isDualPublish then
      match (if format = "import" then importResult else requireResult) with
      | some jsResult =>
        let jsResolvedPath := ctx.vfs.pathJoin ctx.pkgDir jsResult.value
        if ctx.vfs.isPathExist jsResolvedPath then
          some (getFilePathFormat ctx.vfs ctx.fuel jsResolvedPath)
        else none
      | none => none
    else none
  match fromSibling with
  | some f => f
  | none => if format = "import" then .ESM else .CJS

/-- The `expectPath` insertion point for `EXPORTS_TYPES_INVALID_FORMAT`
(core.js line 1141-1152). -/
def dtsExpectPath (typesPath : List String) (format : String) : List String :=
  if typesPath.contains format then typesPath
  else
    let typesIndex := typesPath.indexOf "types"
    if typesIndex = typesPath.length - 1 then
      typesPath.take typesIndex ++ [format] ++ typesPath.drop typesIndex
    else typesPath ++ [format]

/-- The resolved-to-dts branch of the pairing check (core.js line 1101-1166). -/
def dtsFormatCheckMessages (ctx : Ctx) (format : String)
    (importResult requireResult : Option ResolvedEntry) (isDualPublish : Bool)
    (typesResult : ResolvedEntry) (typesResolvedPath : String) : List Message :=
  let dtsActualFormat := getDtsFilePathFormat ctx.vfs ctx.fuel typesResolvedPath
  let dtsExpectFormat := dtsExpectedFormat ctx format importResult requireResult isDualPublish
  if dtsActualFormat ≠ dtsExpectFormat then
    [{ code := "EXPORTS_TYPES_INVALID_FORMAT"
       args := [("condition", .str format),
                ("actualFormat", .str dtsActualFormat.toStr),
                ("expectFormat", .str dtsExpectFormat.toStr),
                ("actualExtension", .str (ctx.vfs.getExtName typesResult.value)),
                ("expectExtension", .str (getDtsCodeFormatExtension dtsExpectFormat)),
                ("expectPath", .arr ((dtsExpectPath typesResult.path format).map .str))]
       path := typesResult.path
       type := "warning" }]
  else []

/-- The resolved-to-non-dts branch: look for the adjacent declaration file,
else flag `TYPES_NOT_EXPORTED` (core.js line 1167-1201). -/
def nonDtsCheckMessages (ctx : Ctx) (typesFilePath format : String)
    (typesResult : ResolvedEntry) : List Message :=
  if ctx.vfs.isPathExist
      (ctx.vfs.pathJoin ctx.pkgDir (getAdjacentDtsPath typesResult.value)) then []
  else
    let dtsActualFormat :=
      getDtsFilePathFormat ctx.vfs ctx.fuel (ctx.vfs.pathJoin ctx.pkgDir typesFilePath)
    let dtsExpectFormat := if format = "import" then CodeFormat.ESM else CodeFormat.CJS
    let isMatchingFormat := dtsActualFormat = dtsExpectFormat
    [{ code := "TYPES_NOT_EXPORTED"
       args := [("typesFilePath", .str typesFilePath)] ++
         (if isMatchingFormat then []
          else [("actualExtension", .str (ctx.vfs.getExtName typesFilePath)),
                ("expectExtension", .str (getDtsCodeFormatExtension dtsExpectFormat))])
       path := typesResult.path
       type := "warning" }]

/-- One `format` iteration of the pairing check (core.js line 1084-1202),
threading the seen-key deduplication set. -/
def typesFormatStep (ctx : Ctx) (exportsRootValue : JsonValue)
    (exportsPath : List String) (typesFilePath format : String) (env : Option String)
    (importResult requireResult : Option ResolvedEntry) (isDualPublish : Bool)
    (seen : List String) : List Message × List String :=
  match resolveExports exportsRootValue (["types", format] ++ env.toList) exportsPath with
  | none => ([], seen)
  | some typesResult =>
    let seenKey :=
      String.intercalate "." typesResult.path ++ (if isDualPublish then format else "")
    if seen.contains seenKey then ([], seen)
    else
      let seen := seen ++ [seenKey]
      let typesResolvedPath := ctx.vfs.pathJoin ctx.pkgDir typesResult.value
      if !(ctx.vfs.isPathExist typesResolvedPath) then ([], seen)
      else if isDtsFile typesResult.value then
        (dtsFormatCheckMessages ctx format importResult requireResult isDualPublish
          typesResult typesResolvedPath, seen)
      else
        (nonDtsCheckMessages ctx typesFilePath format typesResult, seen)

/-- The `for (const env of [undefined, 'node', 'browser', 'worker'])` loop
(core.js line 1076-1203); `conditions.filter(Boolean)` drops the absent env. -/
def typesExportedEnvLoop (ctx : Ctx) (exportsRootValue : JsonValue)
    (exportsPath : List String) (typesFilePath : String) :
    List (Option String) → List String → List Message
  | [], _ => []
  | env :: envs, seen =>
    let importResult := resolveExports exportsRootValue (["import"] ++ env.toList) exportsPath
    let requireResult := resolveExports exportsRootValue (["require"] ++ env.toList) exportsPath
    let isDualPublish :=
      match importResult, requireResult with
      | some ir, some rr => ir.value ≠ rr.value
      | _, _ => false
    let step1 := typesFormatStep ctx exportsRootValue exportsPath typesFilePath "import"
      env importResult requireResult isDualPublish seen
    let step2 := typesFormatStep ctx exportsRootValue exportsPath typesFilePath "require"
      env importResult requireResult isDualPublish step1.2
    step1.1 ++ step2.1 ++
    typesExportedEnvLoop ctx exportsRootValue exportsPath typesFilePath envs step2.2

/-- Source `checkTypesExported` of core.js (line 1046-1206). -/
def checkTypesExported (ctx : Ctx) (exportsPkgPath : List String)
    (exportsRootKey : Option String) : List Message :=
  match findTypesFilePath ctx exportsRootKey with
  | none => []
  | some typesFilePath =>
    let exportsRootValue :=
      match exportsRootKey with
      | some k => (jsMember (ctx.exports?.getD .null) k).getD .null
      | none => ctx.exports?.getD .null
    let exportsPath :=
      match exportsRootKey with
      | some k => exportsPkgPath ++ [k]
      | none => exportsPkgPath
    typesExportedEnvLoop ctx exportsRootValue exportsPath typesFilePath
      [none, some "node", some "browser", some "worker"] []

/-- Source `doCheckTypesExported` of core.js (line 1023-1041); an array `exports`
has index keys, so its first key does not start with `.`. -/
def doCheckTypesExported (ctx : Ctx) (exportsPkgPath : List String) : List Message :=
  match ctx.exports? with
  | some (.str _) => checkTypesExported ctx exportsPkgPath none
  | some (.obj kvs) =>
    let exportsKeys := kvs.map Prod.fst
    if exportsKeys.isEmpty then []
    else if !(strStartsWith (exportsKeys.headD "") ".") then
      checkTypesExported ctx exportsPkgPath none
    else if exportsKeys.contains "." then
      checkTypesExported ctx exportsPkgPath (some ".")
    else []
  | some (.arr xs) =>
    if xs.isEmpty then [] else checkTypesExported ctx exportsPkgPath none
  | _ => []

/-! ### Sample environments used by witnesses and counterexamples -/

/-- A VFS with no files; every operation fails or returns nothing. -/
def emptyVfs : Vfs :=
  { readFile := fun _ => none
    readDir := fun _ => []
    isPathDir := fun _ => false
    isPathExist := fun _ => false
    pathJoin := fun a b => a ++ "/" ++ b
    pathRelative := fun _ b => b
    getDirName := fun _ => "/"
    getExtName := fun _ => ".js"
    jsonParsePkg := fun _ => none }

/-- Concrete constant lists for witnesses (the real `constants.js` is absent
from `src/`; any lists satisfy the theorems, which quantify over them). -/
def sampleConsts : Consts :=
  { lintableFileExtensions := [".js", ".mjs", ".cjs"]
    invalidJsxExtensions := [".cjsx", ".mjsx", ".ctsx", ".mtsx"]
    knownBrowserishConditions := ["browser", "worker"] }

/-- A concrete crawl context over the empty VFS. -/
def sampleCtx : Ctx :=
  { vfs := emptyVfs
    fuel := 5
    pkgDir := "/pkg"
    rootPkg := .obj []
    exports? := none
    browser? := none
    browserPkgPath := ["browser"]
    packedFiles? := none
    consts := sampleConsts }

/-! ### Claim C1 — the expected-format rule -/

/-- The ancestor walk as the spec's sentence words it: find the nearest
manifest WITH a `type` field, skipping parsed manifests that lack one.
Compare with `getNearestPkgLoop`, which stops at the nearest manifest that
parses at all. -/
def specNearestTypeLoop (vfs : Vfs) : Nat → String → Option Pkg
  | 0, _ => none
  | fuel + 1, currentDir =>
    let pkgJsonPath := vfs.pathJoin currentDir "package.json"
    let parsed :=
      if vfs.isPathExist pkgJsonPath then (vfs.readFile pkgJsonPath).bind vfs.jsonParsePkg
      else none
    match parsed with
    | some pkg =>
      if pkg.type?.isSome then some pkg
      else
        let nextDir := vfs.getDirName currentDir
        if nextDir = currentDir then none else specNearestTypeLoop vfs fuel nextDir
    | none =>
      let nextDir := vfs.getDirName currentDir
      if nextDir = currentDir then none else specNearestTypeLoop vfs fuel nextDir

/-- The expected-format rule exactly as the claim states it: explicit
extension first, otherwise the nearest manifest WITH a `type` field. -/
def specExpectedFormat (vfs : Vfs) (fuel : Nat) (filePath : String) : CodeFormat :=
  let filePath := stripNativeSuffix filePath
  if strEndsWith filePath ".mjs" then .ESM
  else if strEndsWith filePath ".cjs" then .CJS
  else
    match specNearestTypeLoop vfs fuel (vfs.getDirName filePath) with
    | some pkg => if pkg.type? = some "module" then .ESM else .CJS
    | none => .CJS

/-- A file tree where the nearest manifest parses but has no `type` field,
while its parent directory's manifest declares `"type": "module"`. -/
def c1Vfs : Vfs :=
  { readFile := fun p =>
      if p = "/a/b/package.json" then some "notype"
      else if p = "/a/package.json" then some "moduletype"
      else none
    readDir := fun _ => []
    isPathDir := fun _ => false
    isPathExist := fun p => p = "/a/b/package.json" || p = "/a/package.json"
    pathJoin := fun a b => a ++ "/" ++ b
    pathRelative := fun _ b => b
    getDirName := fun p =>
      if p = "/a/b/f.js" || p = "/a/b/x.mjs" then "/a/b"
      else if p = "/a/b" then "/a"
      else if p = "/a" then "/"
      else "/"
    getExtName := fun _ => ".js"
    jsonParsePkg := fun sv =>
      if sv = "notype" then some ⟨none⟩
      else if sv = "moduletype" then some ⟨some "module"⟩
      else none }

/-- C1 counterexample: for `/a/b/f.js` (no explicit dual-format extension),
the nearest manifest (`/a/b/package.json`) parses but has no `type` field and
the walk stops there — the code yields CJS — while the claim's walk to the
nearest manifest WITH a `type` field (`/a/package.json`, `"module"`) yields
ESM. -/
theorem c1_counterexample :
    strEndsWith (stripNativeSuffix "/a/b/f.js") ".mjs" = false ∧
    strEndsWith (stripNativeSuffix "/a/b/f.js") ".cjs" = false ∧
    getFilePathFormat c1Vfs 5 "/a/b/f.js" = .CJS ∧
    specExpectedFormat c1Vfs 5 "/a/b/f.js" = .ESM := by
  refine ⟨by decide, by decide, by decide, by decide⟩

/-- C1 (amended): after stripping a `.native.js` suffix, an explicit `.mjs`
(resp. `.cjs`) extension gives ESM (resp. CJS) without consulting any
manifest (the result is independent of the VFS and fuel); otherwise the walk
stops at the nearest manifest that parses at all — regardless of whether it
has a `type` field — and yields ESM exactly when that manifest's `type` is
`"module"`, CJS otherwise (including when no manifest parses). -/
theorem c1_expected_format_rule (vfs vfs2 : Vfs) (fuel fuel2 : Nat) (filePath : String) :
    (strEndsWith (stripNativeSuffix filePath) ".mjs" = true →
      getFilePathFormat vfs fuel filePath = .ESM ∧
      getFilePathFormat vfs fuel filePath = getFilePathFormat vfs2 fuel2 filePath) ∧
    (strEndsWith (stripNativeSuffix filePath) ".mjs" = false →
      strEndsWith (stripNativeSuffix filePath) ".cjs" = true →
      getFilePathFormat vfs fuel filePath = .CJS ∧
      getFilePathFormat vfs fuel filePath = getFilePathFormat vfs2 fuel2 filePath) ∧
    (strEndsWith (stripNativeSuffix filePath) ".mjs" = false →
      strEndsWith (stripNativeSuffix filePath) ".cjs" = false →
      getFilePathFormat vfs fuel filePath =
        (if (getNearestPkg vfs fuel (stripNativeSuffix filePath)).bind Pkg.type? = some "module"
         then .ESM else .CJS)) := by
  refine ⟨fun h1 => ?_, fun h1 h2 => ?_, fun h1 h2 => ?_⟩
  · exact ⟨by simp [getFilePathFormat, h1], by simp [getFilePathFormat, h1]⟩
  · exact ⟨by simp [getFilePathFormat, h1, h2], by simp [getFilePathFormat, h1, h2]⟩
  · simp [getFilePathFormat, h1, h2]

/-- C1 witness: the amended rule applied to a concrete `.mjs` path over two
different file systems. -/
theorem c1_expected_format_rule_witness :
    getFilePathFormat c1Vfs 5 "/a/b/x.mjs" = .ESM ∧
    getFilePathFormat c1Vfs 5 "/a/b/x.mjs" = getFilePathFormat emptyVfs 0 "/a/b/x.mjs" :=
  (c1_expected_format_rule c1Vfs emptyVfs 5 0 "/a/b/x.mjs").1 (by decide)

/-! ### Claim C2 — the code-format classifier -/

/-- C2: `getCodeFormat` strips comments and classifies by which of the two
marker sets match: both → `mixed`, only ESM markers → `ESM`, only CJS
markers → `CJS`, neither → `unknown`. -/
theorem c2_code_format_classification (code : String) :
    (getCodeFormat code = .mixed ↔
      isCodeEsm (stripComments code) = true ∧ isCodeCjs (stripComments code) = true) ∧
    (getCodeFormat code = .ESM ↔
      isCodeEsm (stripComments code) = true ∧ isCodeCjs (stripComments code) = false) ∧
    (getCodeFormat code = .CJS ↔
      isCodeEsm (stripComments code) = false ∧ isCodeCjs (stripComments code) = true) ∧
    (getCodeFormat code = .unknown ↔
      isCodeEsm (stripComments code) = false ∧ isCodeCjs (stripComments code) = false) := by
  cases h1 : isCodeEsm (stripComments code) <;>
    cases h2 : isCodeCjs (stripComments code) <;>
      simp [getCodeFormat, h1, h2]

/-! ### Claim C10 — external `imports` values are skipped -/

/-- C10: while crawling `imports`, a string leaf that does not start with `.`
is skipped entirely — the crawl emits no diagnostic of any kind for it. -/
theorem c10_imports_external_value_skipped (ctx : Ctx) (v : String)
    (currentPath : List String) (isAfterNode : Bool)
    (h : strStartsWith v "." = false) :
    crawlExportsOrImports ctx (.str v) currentPath true isAfterNode = [] := by
  simp [crawlExportsOrImports, leafMessages, h]

/-- C10 witness: a bare specifier under `imports` yields no messages even
though no such file exists. -/
theorem c10_imports_external_value_skipped_witness :
    crawlExportsOrImports sampleCtx (.str "some-dep") ["imports", "#dep"] true false = [] :=
  c10_imports_external_value_skipped sampleCtx "some-dep" ["imports", "#dep"] false (by decide)

/-! ### Localization of the condition-map diagnostics

The ordering and imports-key diagnostics are pushed only at a condition-map
level, with a path that extends the map's path by exactly one key; everything
below a map contributes only strictly longer paths. -/

/-- The diagnostics pushed only at a condition-map level. -/
def mapLevelCode (c : String) : Bool :=
  c == "EXPORTS_MODULE_SHOULD_PRECEDE_REQUIRE" ||
  c == "IMPORTS_MODULE_SHOULD_PRECEDE_REQUIRE" ||
  c == "EXPORTS_DEFAULT_SHOULD_BE_LAST" ||
  c == "IMPORTS_DEFAULT_SHOULD_BE_LAST" ||
  c == "IMPORTS_KEY_INVALID"

theorem mapLevelCode_ite (b : Bool) (c1 c2 : String)
    (h1 : mapLevelCode c1 = false) (h2 : mapLevelCode c2 = false) :
    mapLevelCode (if b then c1 else c2) = false := by
  cases b <;> simpa

theorem fileNotPublishedMsgs_codes (ctx : Ctx) (rp : String) (pp : Option (List String)) :
    ∀ m ∈ fileNotPublishedMsgs ctx rp pp, mapLevelCode m.code = false := by
  intro m hm
  simp only [fileNotPublishedMsgs] at hm
  rcases pp with _ | p
  · simp at hm
  · simp at hm
    rw [hm.2]
    rfl

theorem coreReadFileExts_codes (ctx : Ctx) (path : String) (pkgPath : Option (List String)) :
    ∀ exts, ∀ m ∈ (coreReadFileExts ctx path pkgPath exts).1, mapLevelCode m.code = false := by
  intro exts
  induction exts with
  | nil =>
    intro m hm
    simp only [coreReadFileExts] at hm
    rcases pkgPath with _ | p
    · simp at hm
    · simp at hm
      rw [hm]
      rfl
  | cons e rest ih =>
    intro m hm
    simp only [coreReadFileExts] at hm
    split at hm
    · exact fileNotPublishedMsgs_codes ctx _ pkgPath m hm
    · exact ih m hm

theorem coreReadFile_codes (ctx : Ctx) (path : String) (pkgPath : Option (List String))
    (exts : List String) :
    ∀ m ∈ (coreReadFile ctx path pkgPath exts).1, mapLevelCode m.code = false := by
  intro m hm
  simp only [coreReadFile] at hm
  split at hm
  · exact fileNotPublishedMsgs_codes ctx _ pkgPath m hm
  · exact coreReadFileExts_codes ctx path pkgPath exts m hm

theorem leafContentCheck_codes (ctx : Ctx) (currentPath : List String)
    (isImports isAfterNodeCondition isGlob : Bool) (ev fp content : String) :
    ∀ m ∈ leafContentCheck ctx currentPath isImports isAfterNodeCondition isGlob ev fp content,
      mapLevelCode m.code = false := by
  intro m hm
  simp only [leafContentCheck] at hm
  split_ifs at hm <;> simp at hm <;> rw [hm] <;> rfl

theorem leafFileStep_codes (ctx : Ctx) (currentPath : List String)
    (isImports isAfterNodeCondition isGlob : Bool) (ev fp : String) :
    ∀ m ∈ leafFileStep ctx currentPath isImports isAfterNodeCondition isGlob ev fp,
      mapLevelCode m.code = false := by
  intro m hm
  simp only [leafFileStep, hasInvalidJsxExtension] at hm
  split at hm
  · next m0 heq =>
    rcases Option.map_eq_some'.mp heq with ⟨matched, -, hm0⟩
    simp at hm
    rw [hm, ← hm0]
    rfl
  · split at hm
    · split at hm
      · exact coreReadFile_codes ctx fp (some currentPath) [] m hm
      · simp at hm
    · split at hm
      · next heq =>
        exact coreReadFile_codes ctx fp (some currentPath) [] m (by rw [heq]; exact hm)
      · next rm content heq =>
        rcases List.mem_append.mp hm with h | h
        · exact coreReadFile_codes ctx fp (some currentPath) [] m (by rw [heq]; exact h)
        · exact leafContentCheck_codes ctx currentPath isImports isAfterNodeCondition
            isGlob ev fp content m h

theorem leafFilesLoop_codes (ctx : Ctx) (currentPath : List String)
    (isImports isAfterNodeCondition isGlob : Bool) (ev : String) :
    ∀ files, ∀ m ∈ leafFilesLoop ctx currentPath isImports isAfterNodeCondition isGlob ev files,
      mapLevelCode m.code = false := by
  intro files
  induction files with
  | nil => intro m hm; simp [leafFilesLoop] at hm
  | cons fp rest ih =>
    intro m hm
    simp only [leafFilesLoop] at hm
    rcases List.mem_append.mp hm with h | h
    · exact leafFileStep_codes ctx currentPath isImports isAfterNodeCondition isGlob ev fp m h
    · exact ih m h

theorem leafDeprecatedMsgs_codes (ctx : Ctx) (v : String) (currentPath : List String)
    (isImports : Bool) :
    ∀ m ∈ leafDeprecatedMsgs ctx v currentPath isImports, mapLevelCode m.code = false := by
  intro m hm
  simp only [leafDeprecatedMsgs] at hm
  split at hm
  · simp at hm
    rw [hm]
    refine mapLevelCode_ite _ _ _ ?_ ?_ <;> rfl
  · simp at hm

theorem leafInvalidValueMsgs_codes (v : String) (currentPath : List String)
    (isImports : Bool) :
    ∀ m ∈ leafInvalidValueMsgs v currentPath isImports, mapLevelCode m.code = false := by
  intro m hm
  simp only [leafInvalidValueMsgs] at hm
  split at hm
  · simp at hm
    rw [hm]
    refine mapLevelCode_ite _ _ _ ?_ ?_ <;> rfl
  · simp at hm

theorem leafBrowserConflictMsgs_codes (ctx : Ctx) (v : String) (currentPath : List String)
    (isImports : Bool) :
    ∀ m ∈ leafBrowserConflictMsgs ctx v currentPath isImports, mapLevelCode m.code = false := by
  intro m hm
  simp only [leafBrowserConflictMsgs] at hm
  split at hm
  · split at hm
    · simp at hm
      rw [hm]
      rfl
    · simp at hm
  · simp at hm

theorem leafNoMatchedFilesMsg_code (currentPath : List String) (isImports : Bool) :
    mapLevelCode (leafNoMatchedFilesMsg currentPath isImports).code = false := by
  cases isImports <;> rfl

theorem leafMessages_codes (ctx : Ctx) (v : String) (currentPath : List String)
    (isImports isAfterNodeCondition : Bool) :
    ∀ m ∈ leafMessages ctx v currentPath isImports isAfterNodeCondition,
      mapLevelCode m.code = false := by
  intro m hm
  simp only [leafMessages] at hm
  split at hm
  · simp at hm
  · rcases List.mem_append.mp hm with h | h
    · exact leafDeprecatedMsgs_codes ctx v currentPath isImports m h
    · split at h <;> split at h
      case isTrue.isTrue | isFalse.isTrue =>
        rcases List.mem_append.mp h with h2 | h2
        · exact leafInvalidValueMsgs_codes _ currentPath isImports m h2
        · simp at h2
          rw [h2]
          exact leafNoMatchedFilesMsg_code currentPath isImports
      case isTrue.isFalse | isFalse.isFalse =>
        rcases List.mem_append.mp h with h2 | h2
        · rcases List.mem_append.mp h2 with h3 | h3
          · exact leafInvalidValueMsgs_codes _ currentPath isImports m h3
          · exact leafBrowserConflictMsgs_codes ctx _ currentPath isImports m h3
        · exact leafFilesLoop_codes ctx currentPath isImports isAfterNodeCondition _ _ _ m h2

theorem conditionMapMessages_path (kvs : List (String × JsonValue)) (p : List String)
    (ii : Bool) :
    ∀ m ∈ conditionMapMessages kvs p ii, ∃ k, m.path = p ++ [k] := by
  intro m hm
  simp only [conditionMapMessages] at hm
  rcases List.mem_append.mp hm with h | h
  · rcases List.mem_append.mp h with h2 | h2
    · simp only [typesFirstMessages] at h2
      split at h2
      · split at h2
        · simp at h2
          exact ⟨"types", by rw [h2]⟩
        · simp at h2
      · simp at h2
    · simp only [moduleRequireMessages] at h2
      split at h2
      · simp at h2
        exact ⟨"module", by rw [h2]⟩
      · simp at h2
  · simp only [defaultLastMessages] at h
    split at h
    · simp at h
      exact ⟨"default", by rw [h]⟩
    · simp at h

/-- Any map-level-coded diagnostic in a crawl of `v` at `p` sits at a path
strictly longer than `p`. -/
theorem crawl_mapLevelCode_path (ctx : Ctx) (v : JsonValue) (p : List String)
    (ii ian : Bool) :
    ∀ m ∈ crawlExportsOrImports ctx v p ii ian,
      mapLevelCode m.code = true → p.length + 1 ≤ m.path.length := by
  induction v, p, ii, ian using crawlExportsOrImports.induct ctx with
  | motive_2 kvs p2 ii2 icpi ikan =>
    exact ∀ m ∈ crawlEntries ctx kvs p2 ii2 icpi ikan,
      mapLevelCode m.code = true → p2.length + 1 ≤ m.path.length
  | motive_3 xs i p3 ii3 ian3 =>
    exact ∀ m ∈ crawlArrayItems ctx xs i p3 ii3 ian3,
      mapLevelCode m.code = true → p3.length + 1 ≤ m.path.length
  | case1 sv cp ii2 ian2 =>
    intro m hm hcode
    simp only [crawlExportsOrImports] at hm
    have := leafMessages_codes ctx sv cp ii2 ian2 m hm
    rw [hcode] at this
    cases this
  | case2 xs cp ii2 ian2 ih =>
    intro m hm hcode
    simp only [crawlExportsOrImports] at hm
    rcases List.mem_cons.mp hm with hm | hm
    · exfalso
      rw [hm] at hcode
      cases ii2 <;> simp [mapLevelCode] at hcode
    · exact ih m hm hcode
  | case3 kvs cp ii2 ian2 ih =>
    intro m hm hcode
    simp only [crawlExportsOrImports] at hm
    rcases List.mem_append.mp hm with h | h
    · obtain ⟨k, hk⟩ := conditionMapMessages_path kvs cp ii2 m h
      simp [hk]
    · exact ih m h hcode
  | case4 t p4 b1 b2 hstr harr hobj =>
    intro m hm hcode
    cases t with
    | str sv => exact absurd rfl (hstr sv)
    | arr xs => exact absurd rfl (harr xs)
    | obj kvs => exact absurd rfl (hobj kvs)
    | num n => simp [crawlExportsOrImports] at hm
    | boolean bb => simp [crawlExportsOrImports] at hm
    | null => simp [crawlExportsOrImports] at hm
  | case5 i3 p3 ii3 ian3 =>
    intro m hm
    simp [crawlArrayItems] at hm
  | case6 v0 rest i cp ii3 ian3 ih2 ih1 =>
    intro m hm hcode
    simp only [crawlArrayItems] at hm
    rcases List.mem_append.mp hm with h | h
    · have := ih2 m h hcode
      simp at this
      omega
    · exact ih1 m h hcode
  | case7 p2 ii2 icpi ikan =>
    intro m hm
    simp [crawlEntries] at hm
  | case8 key v0 rest cp ii2 icpi ikan ih2 ih1 =>
    intro m hm hcode
    simp only [crawlEntries] at hm
    rcases List.mem_append.mp hm with h | h
    · rcases List.mem_append.mp h with h2 | h2
      · split at h2
        · simp at h2
          simp [h2]
        · simp at h2
      · have := ih2 m h2 hcode
        simp at this
        omega
    · exact ih1 m h hcode


/-- Below a condition map, the ordering diagnostics sit at least two keys
deeper than the map's path (the imports-key diagnostic excepted). -/
theorem crawlEntries_mapLevel_path (ctx : Ctx) (cp : List String) (ii icpi : Bool) :
    ∀ (kvs : List (String × JsonValue)) (ikan : Bool),
      ∀ m ∈ crawlEntries ctx kvs cp ii icpi ikan,
        mapLevelCode m.code = true → m.code ≠ "IMPORTS_KEY_INVALID" →
        cp.length + 2 ≤ m.path.length := by
  intro kvs
  induction kvs with
  | nil => intro ikan m hm; simp [crawlEntries] at hm
  | cons kv rest ih =>
    intro ikan m hm hml hne
    obtain ⟨key, v0⟩ := kv
    simp only [crawlEntries] at hm
    rcases List.mem_append.mp hm with h | h
    · rcases List.mem_append.mp h with h2 | h2
      · split at h2
        · simp at h2
          rw [h2] at hne
          simp at hne
        · simp at h2
      · have := crawl_mapLevelCode_path ctx v0 (cp ++ [key]) ii ikan m h2 hml
        simp at this
        omega
    · exact ih (ikan || key == "node") m h hml hne

theorem fourCodes_mapLevel (c : String)
    (h : (c == "EXPORTS_MODULE_SHOULD_PRECEDE_REQUIRE" ||
          c == "IMPORTS_MODULE_SHOULD_PRECEDE_REQUIRE" ||
          c == "EXPORTS_DEFAULT_SHOULD_BE_LAST" ||
          c == "IMPORTS_DEFAULT_SHOULD_BE_LAST") = true) :
    mapLevelCode c = true := by
  simp only [Bool.or_eq_true] at h
  simp only [mapLevelCode, Bool.or_eq_true]
  tauto

/-! ### Claim C5 — `default` must be last -/

/-- C5: crawling a condition map emits the default-must-be-last diagnostic at
the map's path extended with `default` exactly once when `default` is present
and not the last declared key, and never otherwise. -/
theorem c5_default_must_be_last (ctx : Ctx) (kvs : List (String × JsonValue))
    (currentPath : List String) (isImports isAfterNode : Bool) :
    (crawlExportsOrImports ctx (.obj kvs) currentPath isImports isAfterNode).countP
      (fun m => (m.code == "EXPORTS_DEFAULT_SHOULD_BE_LAST" ||
                 m.code == "IMPORTS_DEFAULT_SHOULD_BE_LAST") &&
                m.path == currentPath ++ ["default"]) =
    if (kvs.map Prod.fst).contains "default" &&
        ((kvs.map Prod.fst).getLast? != some "default") then 1 else 0 := by
  set P : Message → Bool := fun m =>
    (m.code == "EXPORTS_DEFAULT_SHOULD_BE_LAST" ||
     m.code == "IMPORTS_DEFAULT_SHOULD_BE_LAST") &&
    m.path == currentPath ++ ["default"] with hP
  simp only [crawlExportsOrImports]
  rw [List.countP_append]
  have hz : (crawlEntries ctx kvs currentPath isImports
      (isImports && (currentPath.getLast? == some "imports")) isAfterNode).countP P = 0 := by
    rw [List.countP_eq_zero]
    intro m hm hPm
    rw [hP] at hPm
    simp only [Bool.and_eq_true] at hPm
    obtain ⟨hcode, hpath⟩ := hPm
    have hml : mapLevelCode m.code = true :=
      fourCodes_mapLevel m.code (by
        simp only [Bool.or_eq_true] at hcode ⊢
        tauto)
    have hne : m.code ≠ "IMPORTS_KEY_INVALID" := by
      intro he
      rw [he] at hcode
      simp at hcode
    have hlen := crawlEntries_mapLevel_path ctx currentPath isImports _ kvs isAfterNode
      m hm hml hne
    rw [beq_iff_eq] at hpath
    rw [hpath] at hlen
    simp at hlen
  rw [hz, Nat.add_zero]
  simp only [conditionMapMessages]
  rw [List.countP_append, List.countP_append]
  have h1 : (typesFirstMessages kvs currentPath isImports).countP P = 0 := by
    rw [List.countP_eq_zero]
    intro m hm
    simp only [typesFirstMessages] at hm
    split at hm
    · split at hm
      · simp at hm
        rw [hP, hm]
        simp
      · simp at hm
    · simp at hm
  have h2 : (moduleRequireMessages kvs currentPath isImports).countP P = 0 := by
    rw [List.countP_eq_zero]
    intro m hm
    simp only [moduleRequireMessages] at hm
    split at hm
    · simp at hm
      rw [hP, hm]
      cases isImports <;> simp
    · simp at hm
  rw [h1, h2]
  by_cases hc : ((kvs.map Prod.fst).contains "default" &&
      ((kvs.map Prod.fst).getLast? != some "default")) = true
  · simp only [defaultLastMessages, hc, if_true]
    rw [hP]
    cases isImports <;> simp
  · simp only [Bool.not_eq_true] at hc
    simp only [defaultLastMessages, hc, Bool.false_eq_true, if_false]
    simp

/-! ### Claim C4 — `module` must precede `require` -/

/-- C4: crawling a condition map emits the module-should-precede-require
diagnostic at the map's path extended with `module` exactly once when both
keys are present and `module`'s declared index exceeds `require`'s, and never
otherwise. -/
theorem c4_module_precede_require (ctx : Ctx) (kvs : List (String × JsonValue))
    (currentPath : List String) (isImports isAfterNode : Bool) :
    (crawlExportsOrImports ctx (.obj kvs) currentPath isImports isAfterNode).countP
      (fun m => (m.code == "EXPORTS_MODULE_SHOULD_PRECEDE_REQUIRE" ||
                 m.code == "IMPORTS_MODULE_SHOULD_PRECEDE_REQUIRE") &&
                m.path == currentPath ++ ["module"]) =
    if (kvs.map Prod.fst).contains "module" && (kvs.map Prod.fst).contains "require" &&
        decide ((kvs.map Prod.fst).indexOf "module" > (kvs.map Prod.fst).indexOf "require")
      then 1 else 0 := by
  set P : Message → Bool := fun m =>
    (m.code == "EXPORTS_MODULE_SHOULD_PRECEDE_REQUIRE" ||
     m.code == "IMPORTS_MODULE_SHOULD_PRECEDE_REQUIRE") &&
    m.path == currentPath ++ ["module"] with hP
  simp only [crawlExportsOrImports]
  rw [List.countP_append]
  have hz : (crawlEntries ctx kvs currentPath isImports
      (isImports && (currentPath.getLast? == some "imports")) isAfterNode).countP P = 0 := by
    rw [List.countP_eq_zero]
    intro m hm hPm
    rw [hP] at hPm
    simp only [Bool.and_eq_true] at hPm
    obtain ⟨hcode, hpath⟩ := hPm
    have hml : mapLevelCode m.code = true :=
      fourCodes_mapLevel m.code (by
        simp only [Bool.or_eq_true] at hcode ⊢
        tauto)
    have hne : m.code ≠ "IMPORTS_KEY_INVALID" := by
      intro he
      rw [he] at hcode
      simp at hcode
    have hlen := crawlEntries_mapLevel_path ctx currentPath isImports _ kvs isAfterNode
      m hm hml hne
    rw [beq_iff_eq] at hpath
    rw [hpath] at hlen
    simp at hlen
  rw [hz, Nat.add_zero]
  simp only [conditionMapMessages]
  rw [List.countP_append, List.countP_append]
  have h1 : (typesFirstMessages kvs currentPath isImports).countP P = 0 := by
    rw [List.countP_eq_zero]
    intro m hm
    simp only [typesFirstMessages] at hm
    split at hm
    · split at hm
      · simp at hm
        rw [hP, hm]
        simp
      · simp at hm
    · simp at hm
  have h3 : (defaultLastMessages kvs currentPath isImports).countP P = 0 := by
    rw [List.countP_eq_zero]
    intro m hm
    simp only [defaultLastMessages] at hm
    split at hm
    · simp at hm
      rw [hP, hm]
      cases isImports <;> simp
    · simp at hm
  rw [h1, h3]
  by_cases hc : ((kvs.map Prod.fst).contains "module" &&
      (kvs.map Prod.fst).contains "require" &&
      decide ((kvs.map Prod.fst).indexOf "module" > (kvs.map Prod.fst).indexOf "require")) = true
  · simp only [moduleRequireMessages, hc, if_true]
    rw [hP]
    cases isImports <;> simp
  · simp only [Bool.not_eq_true] at hc
    simp only [moduleRequireMessages, hc, Bool.false_eq_true, if_false]
    simp

/-! ### Claim C6 — imports keys must start with `#` -/

theorem conditionMapMessages_not_iki (kvs : List (String × JsonValue))
    (p : List String) (ii : Bool) :
    ∀ m ∈ conditionMapMessages kvs p ii, m.code ≠ "IMPORTS_KEY_INVALID" := by
  intro m hm
  simp only [conditionMapMessages] at hm
  rcases List.mem_append.mp hm with h | h
  · rcases List.mem_append.mp h with h2 | h2
    · simp only [typesFirstMessages] at h2
      split at h2
      · split at h2
        · simp at h2
          rw [h2]
          simp
        · simp at h2
      · simp at h2
    · simp only [moduleRequireMessages] at h2
      split at h2
      · simp at h2
        rw [h2]
        cases ii <;> simp
      · simp at h2
  · simp only [defaultLastMessages] at h
    split at h
    · simp at h
      rw [h]
      cases ii <;> simp
    · simp at h

/-- IKI occurrences at the top imports map, counted per key. -/
theorem crawlEntries_countP_iki (ctx : Ctx) (cp : List String) (key : String) :
    ∀ (kvs : List (String × JsonValue)) (ikan : Bool),
      (kvs.map Prod.fst).Nodup →
      (crawlEntries ctx kvs cp true true ikan).countP
        (fun m => m.code == "IMPORTS_KEY_INVALID" && m.path == cp ++ [key]) =
      if key ∈ kvs.map Prod.fst ∧ strStartsWith key "#" = false then 1 else 0 := by
  intro kvs
  induction kvs with
  | nil => intro ikan _; simp [crawlEntries]
  | cons kv rest ih =>
    intro ikan hnd
    obtain ⟨k0, v0⟩ := kv
    simp only [List.map_cons, List.nodup_cons] at hnd
    obtain ⟨hk0, hndr⟩ := hnd
    simp only [crawlEntries]
    rw [List.countP_append, List.countP_append]
    have hchild : (crawlExportsOrImports ctx v0 (cp ++ [k0]) true ikan).countP
        (fun m => m.code == "IMPORTS_KEY_INVALID" && m.path == cp ++ [key]) = 0 := by
      rw [List.countP_eq_zero]
      intro m hm hPm
      simp only [Bool.and_eq_true, beq_iff_eq] at hPm
      obtain ⟨hcode, hpath⟩ := hPm
      have := crawl_mapLevelCode_path ctx v0 (cp ++ [k0]) true ikan m hm
        (by rw [hcode]; decide)
      rw [hpath] at this
      simp at this
    rw [hchild, Nat.add_zero, ih (ikan || k0 == "node") hndr]
    by_cases hkk : k0 = key
    · subst hkk
      have hnotin : ¬(k0 ∈ rest.map Prod.fst ∧ strStartsWith k0 "#" = false) := by
        intro hin
        exact hk0 hin.1
      rw [if_neg hnotin]
      by_cases hsharp : strStartsWith k0 "#" = true
      · rw [if_neg (by simp [hsharp])]
        simp [hsharp]
      · simp only [Bool.not_eq_true] at hsharp
        have hcond : k0 ∈ List.map Prod.fst ((k0, v0) :: rest) ∧
            strStartsWith k0 "#" = false :=
          ⟨by rw [List.map_cons]; exact List.mem_cons_self _ _, hsharp⟩
        rw [if_pos hcond]
        simp [hsharp]
    · have hiki : (if (true && !strStartsWith k0 "#") = true then
          [({ code := "IMPORTS_KEY_INVALID"
              args := [("suggestKey", JsonValue.str ("#" ++ dropLeadingSlashes k0))]
              path := cp ++ [k0], type := "error" } : Message)]
        else []).countP
          (fun m => m.code == "IMPORTS_KEY_INVALID" && m.path == cp ++ [key]) = 0 := by
        split
        · simp [hkk]
        · simp
      rw [hiki, Nat.zero_add]
      by_cases hin : key ∈ rest.map Prod.fst ∧ strStartsWith key "#" = false
      · have hcond : key ∈ List.map Prod.fst ((k0, v0) :: rest) ∧
            strStartsWith key "#" = false :=
          ⟨by rw [List.map_cons]; exact List.mem_cons_of_mem _ hin.1, hin.2⟩
        rw [if_pos hin, if_pos hcond]
      · rw [if_neg hin, if_neg (by
          intro hc
          rcases List.mem_cons.mp hc.1 with he | he
          · exact hkk he.symm
          · exact hin ⟨he, hc.2⟩)]

/-- The concrete IKI message is emitted for a non-`#` key at the top map. -/
theorem crawlEntries_iki_mem (ctx : Ctx) (cp : List String) (key : String) :
    ∀ (kvs : List (String × JsonValue)) (ikan : Bool),
      key ∈ kvs.map Prod.fst → strStartsWith key "#" = false →
      ({ code := "IMPORTS_KEY_INVALID"
         args := [("suggestKey", JsonValue.str ("#" ++ dropLeadingSlashes key))]
         path := cp ++ [key], type := "error" } : Message) ∈
        crawlEntries ctx kvs cp true true ikan := by
  intro kvs
  induction kvs with
  | nil => intro ikan h; simp at h
  | cons kv rest ih =>
    intro ikan hmem hsharp
    obtain ⟨k0, v0⟩ := kv
    simp only [List.map_cons] at hmem
    simp only [crawlEntries]
    rcases List.mem_cons.mp hmem with he | he
    · subst he
      refine List.mem_append.mpr (Or.inl (List.mem_append.mpr (Or.inl ?_)))
      rw [if_pos (by simp [hsharp])]
      exact List.mem_singleton.mpr rfl
    · exact List.mem_append.mpr (Or.inr (ih (ikan || k0 == "node") he hsharp))

/-- C6 counterexample: in an imports crawl, the key `node` of a nested
condition map does not start with `#`, yet no `IMPORTS_KEY_INVALID`
diagnostic is emitted anywhere — only the top-level keys are checked. -/
theorem c6_counterexample :
    strStartsWith "node" "#" = false ∧
    (crawlExportsOrImports sampleCtx
        (.obj [("#a", .obj [("node", .str "./x.js")])]) ["imports"] true false).countP
      (fun m => m.code == "IMPORTS_KEY_INVALID") = 0 := by
  constructor
  · decide
  · rfl

/-- C6 (amended): only the condition map whose path ends with `imports` — the
top-level `imports` map — has its keys checked: there, a key that does not
start with `#` is flagged exactly once, at the map's path extended with the
key, carrying the suggestion `#` + the key with leading slashes removed; keys
starting with `#` (and all keys of nested maps) are never flagged. -/
theorem c6_imports_key_check (ctx : Ctx) (kvs : List (String × JsonValue))
    (currentPath : List String) (isAfterNode : Bool) (key : String)
    (hlast : currentPath.getLast? = some "imports")
    (hnodup : (kvs.map Prod.fst).Nodup)
    (hkey : key ∈ kvs.map Prod.fst) :
    ((crawlExportsOrImports ctx (.obj kvs) currentPath true isAfterNode).countP
      (fun m => m.code == "IMPORTS_KEY_INVALID" && m.path == currentPath ++ [key]) =
      if strStartsWith key "#" then 0 else 1) ∧
    (strStartsWith key "#" = false →
      ({ code := "IMPORTS_KEY_INVALID"
         args := [("suggestKey", JsonValue.str ("#" ++ dropLeadingSlashes key))]
         path := currentPath ++ [key], type := "error" } : Message) ∈
        crawlExportsOrImports ctx (.obj kvs) currentPath true isAfterNode) := by
  have hicpi : (true && (currentPath.getLast? == some "imports")) = true := by
    simp [hlast]
  constructor
  · simp only [crawlExportsOrImports, hicpi]
    rw [List.countP_append]
    have hcm : (conditionMapMessages kvs currentPath true).countP
        (fun m => m.code == "IMPORTS_KEY_INVALID" && m.path == currentPath ++ [key]) = 0 := by
      rw [List.countP_eq_zero]
      intro m hm hPm
      simp only [Bool.and_eq_true, beq_iff_eq] at hPm
      exact conditionMapMessages_not_iki kvs currentPath true m hm hPm.1
    rw [hcm, Nat.zero_add,
      crawlEntries_countP_iki ctx currentPath key kvs isAfterNode hnodup]
    by_cases hsharp : strStartsWith key "#" = true
    · rw [if_pos hsharp, if_neg (by simp [hsharp])]
    · simp only [Bool.not_eq_true] at hsharp
      rw [if_pos ⟨hkey, hsharp⟩, if_neg (by simp [hsharp])]
  · intro hsharp
    simp only [crawlExportsOrImports, hicpi]
    exact List.mem_append.mpr
      (Or.inr (crawlEntries_iki_mem ctx currentPath key kvs isAfterNode hkey hsharp))

/-- C6 witness: a top-level `imports` key `foo` is flagged once with the
suggestion `#foo`, and `#ok` is never flagged. -/
theorem c6_imports_key_check_witness :
    ((crawlExportsOrImports sampleCtx
        (.obj [("foo", .str "./a.js"), ("#ok", .str "./b.js")]) ["imports"] true false).countP
      (fun m => m.code == "IMPORTS_KEY_INVALID" && m.path == ["imports", "foo"]) = 1) ∧
    ({ code := "IMPORTS_KEY_INVALID"
       args := [("suggestKey", JsonValue.str "#foo")]
       path := ["imports", "foo"], type := "error" } : Message) ∈
      crawlExportsOrImports sampleCtx
        (.obj [("foo", .str "./a.js"), ("#ok", .str "./b.js")]) ["imports"] true false ∧
    ((crawlExportsOrImports sampleCtx
        (.obj [("foo", .str "./a.js"), ("#ok", .str "./b.js")]) ["imports"] true false).countP
      (fun m => m.code == "IMPORTS_KEY_INVALID" && m.path == ["imports", "#ok"]) = 0) := by
  refine ⟨?_, ?_, ?_⟩
  · have h := (c6_imports_key_check sampleCtx
      [("foo", .str "./a.js"), ("#ok", .str "./b.js")] ["imports"] false "foo"
      rfl (by decide) (by decide)).1
    rw [show strStartsWith "foo" "#" = false from rfl] at h
    simpa using h
  · exact (c6_imports_key_check sampleCtx
      [("foo", .str "./a.js"), ("#ok", .str "./b.js")] ["imports"] false "foo"
      rfl (by decide) (by decide)).2 (by decide)
  · have h := (c6_imports_key_check sampleCtx
      [("foo", .str "./a.js"), ("#ok", .str "./b.js")] ["imports"] false "#ok"
      rfl (by decide) (by decide)).1
    rw [show strStartsWith "#ok" "#" = true from rfl] at h
    simpa using h

/-! ### Claim C3 — `mixed` and `unknown` never count as mismatches -/

/-- C3: whenever the classifier returns `mixed` or `unknown` for a file's
content, no FILE_INVALID_FORMAT / FILE_INVALID_EXPLICIT_FORMAT diagnostic is
emitted for that file by any of the format-agreement sites: the `main` check,
the `bin` check, the exports/imports leaf check, and the no-`exports` glob
scan. -/
theorem c3_mixed_unknown_never_mismatch (ctx : Ctx) (content : String)
    (h : getCodeFormat content = .mixed ∨ getCodeFormat content = .unknown) :
    (∀ (mainPath : String) (mainPkgPath : List String),
      (mainContentCheck ctx mainPath mainPkgPath content).countP
        (fun m => m.code == "FILE_INVALID_FORMAT" ||
                  m.code == "FILE_INVALID_EXPLICIT_FORMAT") = 0) ∧
    (∀ (binPath : String) (currentPath : List String),
      (binContentCheck ctx binPath currentPath content).countP
        (fun m => m.code == "FILE_INVALID_FORMAT" ||
                  m.code == "FILE_INVALID_EXPLICIT_FORMAT") = 0) ∧
    (∀ (currentPath : List String) (ii ian ig : Bool) (ev fp : String),
      (leafContentCheck ctx currentPath ii ian ig ev fp content).countP
        (fun m => m.code == "FILE_INVALID_FORMAT" ||
                  m.code == "FILE_INVALID_EXPLICIT_FORMAT") = 0) ∧
    (∀ fp : String,
      (globScanFileCheck ctx fp content).countP
        (fun m => m.code == "FILE_INVALID_FORMAT" ||
                  m.code == "FILE_INVALID_EXPLICIT_FORMAT") = 0) := by
  refine ⟨fun mainPath mainPkgPath => ?_, fun binPath currentPath => ?_,
    fun cp ii ian ig ev fp => ?_, fun fp => ?_⟩
  · rcases h with h | h <;> (simp only [mainContentCheck, h]; split_ifs <;> simp_all)
  · rcases h with h | h <;> (simp only [binContentCheck, h]; split_ifs <;> simp_all)
  · rcases h with h | h <;> (simp only [leafContentCheck, h]; split_ifs <;> simp_all)
  · rcases h with h | h <;> (simp only [globScanFileCheck, h]; split_ifs <;> simp_all)

/-- C3 witness: side-effect-only content (`unknown` format) produces no
format-mismatch diagnostic at any of the four sites. -/
theorem c3_mixed_unknown_never_mismatch_witness :
    (mainContentCheck sampleCtx "/pkg/a.js" ["main"] "console.log(1)").countP
      (fun m => m.code == "FILE_INVALID_FORMAT" ||
                m.code == "FILE_INVALID_EXPLICIT_FORMAT") = 0 ∧
    (binContentCheck sampleCtx "/pkg/cli.js" ["bin"] "console.log(1)").countP
      (fun m => m.code == "FILE_INVALID_FORMAT" ||
                m.code == "FILE_INVALID_EXPLICIT_FORMAT") = 0 ∧
    (leafContentCheck sampleCtx ["exports"] false false false "./a.js" "/pkg/a.js"
        "console.log(1)").countP
      (fun m => m.code == "FILE_INVALID_FORMAT" ||
                m.code == "FILE_INVALID_EXPLICIT_FORMAT") = 0 ∧
    (globScanFileCheck sampleCtx "/pkg/a.js" "console.log(1)").countP
      (fun m => m.code == "FILE_INVALID_FORMAT" ||
                m.code == "FILE_INVALID_EXPLICIT_FORMAT") = 0 := by
  have h := c3_mixed_unknown_never_mismatch sampleCtx "console.log(1)"
    (Or.inr (by decide))
  exact ⟨h.1 "/pkg/a.js" ["main"], h.2.1 "/pkg/cli.js" ["bin"],
    h.2.2.1 ["exports"] false false false "./a.js" "/pkg/a.js", h.2.2.2 "/pkg/a.js"⟩

/-! ### Claim C7 — repeated wildcard captures must agree -/

/-- A file accepted by the per-file glob decision matches the derived pattern
with all captures equal to the first. -/
theorem globFileDecision_captures (globPieces : List (List Char))
    (exclActive : Bool) (exclKeys : List String) (exportsKey itemPath : String)
    (h : globFileDecision globPieces exclActive exclKeys exportsKey itemPath = true) :
    ∃ cs, matchPieces globPieces (slash itemPath).data = some cs ∧
      ∀ c1 cs2, cs = c1 :: cs2 → ∀ c ∈ cs2, c = c1 := by
  unfold globFileDecision at h
  split at h
  · exact absurd h (by simp)
  · next captures heq =>
    refine ⟨captures, heq, ?_⟩
    intro c1 cs2 hcs c hc
    rw [hcs] at h
    simp only [List.headD_cons] at h
    split at h
    · exact absurd h (by simp)
    · next hcond =>
      simp only [Bool.and_eq_true, not_and, Bool.not_eq_true] at hcond
      by_contra hne
      have hlen : 2 ≤ (c1 :: cs2).length := by
        rcases cs2 with _ | ⟨x, xs⟩
        · simp at hc
        · simp
      have hany : (c1 :: cs2).any (fun x => decide (x ≠ c1)) = true := by
        refine List.any_eq_true.mpr ⟨c, List.mem_cons_of_mem _ hc, ?_⟩
        simpa using hne
      have := hcond (by simpa using hlen)
      rw [hany] at this
      cases this

/-- Every file collected by the directory scan passed the per-file decision. -/
theorem exportsGlobScan_mem_decision (vfs : Vfs) (globPieces : List (List Char))
    (packedFiles : Option (List String)) (exclActive : Bool)
    (exclKeys : List String) (exportsKey : String) :
    ∀ fuel : Nat,
      (∀ dirPath filePath,
        filePath ∈ exportsGlobScan vfs globPieces packedFiles exclActive exclKeys
          exportsKey fuel dirPath →
        globFileDecision globPieces exclActive exclKeys exportsKey filePath = true) ∧
      (∀ dirPath items filePath,
        filePath ∈ exportsGlobItems vfs globPieces packedFiles exclActive exclKeys
          exportsKey fuel dirPath items →
        globFileDecision globPieces exclActive exclKeys exportsKey filePath = true) := by
  intro fuel
  induction fuel with
  | zero =>
    constructor
    · intro d f hm
      simp [exportsGlobScan] at hm
    · intro d items f hm
      rcases items with _ | ⟨i, is⟩ <;> simp [exportsGlobItems] at hm
  | succ n ih =>
    constructor
    · intro d f hm
      simp only [exportsGlobScan] at hm
      exact ih.2 d _ f hm
    · intro d items f hm
      rcases items with _ | ⟨i, is⟩
      · simp [exportsGlobItems] at hm
      · simp only [exportsGlobItems] at hm
        rcases List.mem_append.mp hm with h | h
        · split at h
          · split at h
            · exact ih.1 _ f h
            · split at h
              · next hdec =>
                rw [List.mem_singleton.mp h]
                exact hdec
              · simp at h
          · simp at h
        · exact ih.2 d is f h

/-- C7: a candidate file is included in the glob expansion only if the derived
regular expression matches it and, when the wildcard is captured more than
once, all captured instances are textually identical. -/
theorem c7_glob_captures_consistent (globStr : String) (vfs : Vfs)
    (packedFiles : Option (List String)) (exportsKey : Option String)
    (exports : Option JsonValue) (fuel : Nat) (filePath : String)
    (hmem : filePath ∈ exportsGlob globStr vfs packedFiles exportsKey exports fuel) :
    ∃ cs, matchPieces (splitOnChar '*' (slash globStr).data) (slash filePath).data
        = some cs ∧
      ∀ c1 cs2, cs = c1 :: cs2 → ∀ c ∈ cs2, c = c1 := by
  simp only [exportsGlob] at hmem
  split at hmem
  · split at hmem
    · exact globFileDecision_captures _ _ _ _ filePath
        ((exportsGlobScan_mem_decision vfs _ packedFiles _ _ _ fuel).1 _ filePath hmem)
    · simp at hmem
  · simp at hmem

/-- A one-file tree for the glob witness. -/
def globVfs : Vfs :=
  { readFile := fun _ => none
    readDir := fun p => if p = "/pkg/dist" then ["a.js"] else []
    isPathDir := fun p => p = "/pkg/dist"
    isPathExist := fun _ => false
    pathJoin := fun a b => a ++ "/" ++ b
    pathRelative := fun _ b => b
    getDirName := fun _ => "/"
    getExtName := fun _ => ".js"
    jsonParsePkg := fun _ => none }

/-- C7 witness: the concrete expansion of `/pkg/dist/*.js` contains
`/pkg/dist/a.js`, whose single capture trivially agrees with itself. -/
theorem c7_glob_captures_consistent_witness :
    "/pkg/dist/a.js" ∈ exportsGlob "/pkg/dist/*.js" globVfs none none none 3 ∧
    ∃ cs, matchPieces (splitOnChar '*' (slash "/pkg/dist/*.js").data)
        (slash "/pkg/dist/a.js").data = some cs ∧
      ∀ c1 cs2, cs = c1 :: cs2 → ∀ c ∈ cs2, c = c1 :=
  ⟨by decide,
   c7_glob_captures_consistent "/pkg/dist/*.js" globVfs none none none 3
     "/pkg/dist/a.js" (by decide)⟩

/-! ### Claim C8 — trailing-slash subpath mappings -/

theorem strIncludes_append_star (v : String) : strIncludes (v ++ "*") "*" = true := by
  have hstep : ∀ l : List Char, containsSub ['*'] (l ++ ['*']) = true := by
    intro l
    induction l with
    | nil => rfl
    | cons c cs ih =>
      show containsSub ['*'] (c :: (cs ++ ['*'])) = true
      simp only [containsSub]
      rw [ih]
      simp
  have hdata : (v ++ "*").data = v.data ++ ['*'] := rfl
  simp only [strIncludes, hdata]
  exact hstep v.data

/-- C8 counterexample: an `imports` leaf value ending in `/` that does not
start with `.` is skipped entirely, so the deprecated-subpath-mapping
diagnostic does not fire for it, contradicting the claim's universal
quantification over every exports/imports leaf value ending in `/`. -/
theorem c8_counterexample :
    strEndsWith "ext/" "/" = true ∧
    crawlExportsOrImports sampleCtx (.str "ext/") ["imports", "#a"] true false = [] :=
  ⟨by decide, rfl⟩

/-- C8 (amended): for every leaf value ending in `/` that is actually
processed (in an `imports` context only values starting with `.` are), the
value is rewritten to the value plus `*`, the deprecated-subpath-mapping
diagnostic fires (as a suggestion exactly when the manifest already holds a
truthy value at the key path with `/`-keys rewritten to wildcards, as an
error otherwise), and, independently, if the rewritten glob matches no files
the no-matched-files diagnostic also fires — both for the same leaf. -/
theorem c8_trailing_slash_rewrite (ctx : Ctx) (v : String) (p : List String)
    (ii ian : Bool)
    (hslash : strEndsWith v "/" = true)
    (hproc : ii = true → strStartsWith v "." = true) :
    (({ code := if ii then "IMPORTS_GLOB_NO_DEPRECATED_SUBPATH_MAPPING"
                else "EXPORTS_GLOB_NO_DEPRECATED_SUBPATH_MAPPING"
        args := [("expectPath", JsonValue.arr
                    ((p.map (fun part => if strEndsWith part "/" then part ++ "*" else part)).map .str)),
                 ("expectValue", JsonValue.str (v ++ "*"))]
        path := p
        type := if (match getPkgPathValue ctx.rootPkg
                      (p.map (fun part => if strEndsWith part "/" then part ++ "*" else part)) with
                    | some jv => jv.truthy
                    | none => false) then "suggestion" else "error" } : Message) ∈
      leafMessages ctx v p ii ian) ∧
    (getExportsFiles ctx (v ++ "*") (p.get? 1) = [] →
      leafNoMatchedFilesMsg p ii ∈ leafMessages ctx v p ii ian) := by
  have hskip : (ii && !(strStartsWith v ".")) = false := by
    cases ii
    · rfl
    · rw [hproc rfl]
      rfl
  constructor
  · simp only [leafMessages, hskip, Bool.false_eq_true, if_false, hslash, if_true]
    refine List.mem_append.mpr (Or.inl ?_)
    simp only [leafDeprecatedMsgs, hslash, if_true]
    exact List.mem_singleton.mpr rfl
  · intro hempty
    simp only [leafMessages, hskip, Bool.false_eq_true, if_false, hslash, if_true]
    refine List.mem_append.mpr (Or.inr ?_)
    rw [if_pos (by rw [hempty, strIncludes_append_star]; rfl)]
    exact List.mem_append.mpr (Or.inr (List.mem_singleton.mpr rfl))

/-- C8 witness: a processed `exports` mapping `"./sub/"` over the empty tree
gets both the deprecation error and the no-matched-files warning. -/
theorem c8_trailing_slash_rewrite_witness :
    ({ code := "EXPORTS_GLOB_NO_DEPRECATED_SUBPATH_MAPPING"
       args := [("expectPath", JsonValue.arr [.str "exports", .str "./sub/*"]),
                ("expectValue", JsonValue.str "./sub/*")]
       path := ["exports", "./sub/"]
       type := "error" } : Message) ∈
      leafMessages sampleCtx "./sub/" ["exports", "./sub/"] false false ∧
    leafNoMatchedFilesMsg ["exports", "./sub/"] false ∈
      leafMessages sampleCtx "./sub/" ["exports", "./sub/"] false false := by
  have h := c8_trailing_slash_rewrite sampleCtx "./sub/" ["exports", "./sub/"]
    false false (by decide) (by intro hii; exact absurd hii (by decide))
  exact ⟨h.1, h.2 rfl⟩

/-! ### Claim C9 — declaration-file format pairing -/

theorem dts_cts_not_mts (s : String) (h : strEndsWith s ".d.cts" = true) :
    strEndsWith s ".d.mts" = false := by
  unfold strEndsWith at h ⊢
  rw [List.isSuffixOf_iff_suffix] at h
  by_contra hb
  simp only [Bool.not_eq_false] at hb
  rw [List.isSuffixOf_iff_suffix] at hb
  obtain ⟨t1, ht1⟩ := h
  obtain ⟨t2, ht2⟩ := hb
  rw [← ht2] at ht1
  have hlen : t1.length = t2.length := by
    have := congrArg List.length ht1
    simp at this
    omega
  have := List.append_inj_right ht1 hlen
  exact absurd this (by decide)

/-- C9: for a resolved declaration file with an explicit dual-format
extension, the actual format comes from the extension alone, the expected
format comes from the sibling code file resolved for the same conditions
(when not dual-publishing and that file exists) and otherwise falls back to
the condition name (`import` → ESM, otherwise CJS), and the
EXPORTS_TYPES_INVALID_FORMAT diagnostic fires exactly when they differ,
carrying the suggested corrected extension and the insertion point. -/
theorem c9_types_format_pairing (ctx : Ctx) (format : String)
    (importResult requireResult : Option ResolvedEntry) (isDualPublish : Bool)
    (typesResult : ResolvedEntry) (typesResolvedPath : String)
    (hext : strEndsWith typesResolvedPath ".d.mts" = true ∨
            strEndsWith typesResolvedPath ".d.cts" = true) :
    dtsFormatCheckMessages ctx format importResult requireResult isDualPublish
        typesResult typesResolvedPath =
      (let actual : CodeFormat :=
        if strEndsWith typesResolvedPath ".d.mts" then .ESM else .CJS
      let expected : CodeFormat :=
        match (if isDualPublish then none
               else if format = "import" then importResult else requireResult) with
        | some jsResult =>
          if ctx.vfs.isPathExist (ctx.vfs.pathJoin ctx.pkgDir jsResult.value) then
            getFilePathFormat ctx.vfs ctx.fuel (ctx.vfs.pathJoin ctx.pkgDir jsResult.value)
          else if format = "import" then .ESM else .CJS
        | none => if format = "import" then .ESM else .CJS
      if actual ≠ expected then
        [{ code := "EXPORTS_TYPES_INVALID_FORMAT"
           args := [("condition", JsonValue.str format),
                    ("actualFormat", JsonValue.str actual.toStr),
                    ("expectFormat", JsonValue.str expected.toStr),
                    ("actualExtension", JsonValue.str (ctx.vfs.getExtName typesResult.value)),
                    ("expectExtension", JsonValue.str (getDtsCodeFormatExtension expected)),
                    ("expectPath", JsonValue.arr ((dtsExpectPath typesResult.path format).map .str))]
           path := typesResult.path
           type := "warning" }]
      else []) := by
  have hactual : getDtsFilePathFormat ctx.vfs ctx.fuel typesResolvedPath =
      (if strEndsWith typesResolvedPath ".d.mts" then CodeFormat.ESM else CodeFormat.CJS) := by
    rcases hext with h | h
    · simp [getDtsFilePathFormat, h]
    · simp [getDtsFilePathFormat, dts_cts_not_mts _ h, h]
  have hexpect : dtsExpectedFormat ctx format importResult requireResult isDualPublish =
      (match (if isDualPublish then none
              else if format = "import" then importResult else requireResult) with
       | some jsResult =>
         if ctx.vfs.isPathExist (ctx.vfs.pathJoin ctx.pkgDir jsResult.value) then
           getFilePathFormat ctx.vfs ctx.fuel (ctx.vfs.pathJoin ctx.pkgDir jsResult.value)
         else if format = "import" then CodeFormat.ESM else CodeFormat.CJS
       | none => if format = "import" then CodeFormat.ESM else CodeFormat.CJS) := by
    cases isDualPublish
    · rcases hjr : (if format = "import" then importResult else requireResult) with _ | jr
      · simp [dtsExpectedFormat, hjr]
      · by_cases hex : ctx.vfs.isPathExist (ctx.vfs.pathJoin ctx.pkgDir jr.value) = true
        · simp [dtsExpectedFormat, hjr, hex]
        · simp only [Bool.not_eq_true] at hex
          simp [dtsExpectedFormat, hjr, hex]
    · simp [dtsExpectedFormat]
  simp only [dtsFormatCheckMessages, hactual, hexpect]

/-- C9 witness: `./a.d.cts` resolved for the `import` condition with no
resolvable sibling expects ESM by the condition fallback and flags the
mismatch with the suggested `.mts` extension and insertion point. -/
theorem c9_types_format_pairing_witness :
    dtsFormatCheckMessages sampleCtx "import" none none false
        ⟨"./a.d.cts", ["exports", "types"]⟩ "/pkg/a.d.cts" =
      [{ code := "EXPORTS_TYPES_INVALID_FORMAT"
         args := [("condition", JsonValue.str "import"),
                  ("actualFormat", JsonValue.str "CJS"),
                  ("expectFormat", JsonValue.str "ESM"),
                  ("actualExtension", JsonValue.str ".js"),
                  ("expectExtension", JsonValue.str ".mts"),
                  ("expectPath", JsonValue.arr
                    [.str "exports", .str "import", .str "types"])]
         path := ["exports", "types"]
         type := "warning" }] :=
  c9_types_format_pairing sampleCtx "import" none none false
    ⟨"./a.d.cts", ["exports", "types"]⟩ "/pkg/a.d.cts" (Or.inr (by decide))

end Publint
